import Mathlib

/-!
# lpr: second-degree polynomial surface fit (`cmd/lpr/main.go`)

A shallow embedding of the program's pure core and of the control flow of `main`.

Numeric model (a 64-bit target without fused multiply-add, as amd64).
* Go `int` is the 64-bit two's-complement integer: every product of two `int`s is
  passed through `wrapInt`.
* A finite `float64` is the rational number it denotes; `none` stands for a value that
  is not finite.  The conversion `float64(n)` of an `int` rounds to the nearest 53-bit
  significand, ties to even.  Every `float64` sum and product is rounded to the nearest
  `float64`, ties to even (`roundFloat64`, `add64`, `mul64`).
* `uint16(f)` truncates toward zero through a 32-bit integer and keeps the low 16 bits;
  a value outside the 32-bit range, or one that is not finite, gives 0.

External packages.
* `gonum/mat`: `Dense` is a row-major matrix over its backing slice.  `NewDense` fails
  on a zero dimension and on a slice of the wrong length; the failure is a run-time
  error that ends the process with status 2.  `(*Dense).Solve` is a parameter of the
  development: a function returning the new contents of the receiver together with the
  error value, which `getSolution` drops.  The result of `Solve` is taken to hold finite
  values.
* `image`: an image is its `Bounds().Max` and its `At` function, with
  `Bounds().Min = (0,0)` as for every decoded image.  `os`, `image.Decode` and the
  encoders are the fields of `Env`.
-/

namespace Lpr

/-! ## Numbers -/

/-- Go `int` arithmetic on a 64-bit target: the two's-complement wrap of a result. -/
def wrapInt (n : Int) : Int := (n + 2 ^ 63) % 2 ^ 64 - 2 ^ 63

/-- How many low bits a magnitude loses when it is rounded to a 53-bit significand. -/
def dropBits (m : Nat) : Nat → Nat
  | 0 => 0
  | fuel + 1 => if m < 2 ^ 53 then 0 else dropBits (m / 2) fuel + 1

/-- Round a magnitude to the nearest number with a 53-bit significand, ties to even. -/
def roundMag (m : Nat) : Nat :=
  let e := dropBits m 64
  let q := m / 2 ^ e
  let r := m % 2 ^ e
  (if 2 ^ e < 2 * r ∨ (2 * r = 2 ^ e ∧ q % 2 = 1) then q + 1 else q) * 2 ^ e

/-- Go conversion `float64(n)` of an integer `n`. -/
def float64 (n : Int) : ℚ :=
  if n < 0 then -((roundMag n.natAbs : Nat) : ℚ) else ((roundMag n.natAbs : Nat) : ℚ)

/-- Round a non-negative number to the nearest integer, ties to even. -/
def roundHalfEven (m : ℚ) : Int :=
  if m - Int.floor m < 1 / 2 then Int.floor m
  else if 1 / 2 < m - Int.floor m then Int.floor m + 1
  else if Int.floor m % 2 = 0 then Int.floor m else Int.floor m + 1

/-- The `float64` nearest to a number, ties to even, with gradual underflow; `none` when
the rounded magnitude reaches `2^1024`, where the result is an infinity. -/
def roundFloat64 (q : ℚ) : Option ℚ :=
  if q = 0 then some 0
  else if (2 : ℚ) ^ (1024 : Int)
      ≤ (roundHalfEven (|q| / (2 : ℚ) ^ (max (Int.log 2 |q|) (-1022) - 52)) : ℚ)
        * (2 : ℚ) ^ (max (Int.log 2 |q|) (-1022) - 52) then none
  else some ((if q < 0 then -1 else 1)
    * ((roundHalfEven (|q| / (2 : ℚ) ^ (max (Int.log 2 |q|) (-1022) - 52)) : ℚ)
        * (2 : ℚ) ^ (max (Int.log 2 |q|) (-1022) - 52)))

/-- The `float64` product `a * b` of two finite values. -/
def mul64 (a b : ℚ) : Option ℚ := roundFloat64 (a * b)

/-- The `float64` sum `a + b`; a sum with a value that is not finite is not finite. -/
def add64 (a b : Option ℚ) : Option ℚ :=
  match a, b with
  | some x, some y => roundFloat64 (x + y)
  | _, _ => none

/-- The call `math.Max(a, 0)`; for a value that is not finite the result is an infinity,
a NaN or 0, and `uint16` maps all three to 0. -/
def mathMax (a : Option ℚ) : Option ℚ :=
  match a with
  | some x => some (max x 0)
  | none => none

/-- Go conversion `uint16(f)` of a `float64`: truncation toward zero to a 32-bit integer,
of which the low 16 bits are kept; outside the 32-bit range the result is 0. -/
def uint16 (f : Option ℚ) : Nat :=
  match f with
  | none => 0
  | some v =>
    if -2 ^ 31 - 1 < v ∧ v < 2 ^ 31 then
      ((if 0 ≤ v then Int.floor v else Int.ceil v) % 65536).toNat
    else 0

/-! ## `gonum/mat` -/

/-- The type `mat.Dense`: dimensions and the row-major backing slice. -/
structure Dense where
  rows : Nat
  cols : Nat
  data : List ℚ
deriving DecidableEq

/-- The constructor `mat.NewDense(r, c, data)`; `nil` data allocates zeros.  It fails
(a Go run-time error) on a zero dimension and on data whose length is not `r*c`. -/
def NewDense (r c : Nat) (data : Option (List ℚ)) : Except String Dense :=
  if r = 0 ∨ c = 0 then .error "mat: zero length in matrix dimension"
  else
    match data with
    | none => .ok ⟨r, c, List.replicate (r * c) 0⟩
    | some d => if d.length = r * c then .ok ⟨r, c, d⟩ else .error "mat: dimension mismatch"

/-- The accessor `d.At(i, j)`. -/
def Dense.At (d : Dense) (i j : Nat) : ℚ := d.data.getD (i * d.cols + j) 0

/-- The error value of `(*mat.Dense).Solve`. -/
inductive SolveError where
  | condition : SolveError
deriving DecidableEq

/-- The method `receiver.Solve(a, b)`: new contents of the receiver and the error. -/
abbrev Solve := Dense → Dense → Dense → Dense × Option SolveError

/-! ## `image` -/

/-- A `color.Color`, given by the four numbers its `RGBA` method reports. -/
structure Color where
  r : Nat
  g : Nat
  b : Nat
  a : Nat
deriving DecidableEq

/-- The method `c.RGBA()`: four `uint32` values. -/
def Color.RGBA (c : Color) : Nat × Nat × Nat × Nat :=
  (c.r % 2 ^ 32, c.g % 2 ^ 32, c.b % 2 ^ 32, c.a % 2 ^ 32)

/-- An `image.Image`: `Bounds().Max` and the method `At`. -/
structure Image where
  maxX : Nat
  maxY : Nat
  At : Nat → Nat → Color

/-- A `color.NRGBA64` value: four `uint16` components. -/
structure NRGBA64Color where
  R : Nat
  G : Nat
  B : Nat
  A : Nat
deriving DecidableEq

/-- An `image.NRGBA64`: `Bounds().Max` and the pixels in row-major order. -/
structure NRGBA64 where
  maxX : Nat
  maxY : Nat
  pix : List NRGBA64Color
deriving DecidableEq

/-- The constructor `image.NewNRGBA64(bounds)`: all components zero. -/
def NewNRGBA64 (maxX maxY : Nat) : NRGBA64 :=
  ⟨maxX, maxY, List.replicate (maxX * maxY) ⟨0, 0, 0, 0⟩⟩

/-- The method `p.Set(x, y, c)`: a point outside the bounds is ignored. -/
def NRGBA64.Set (p : NRGBA64) (x y : Nat) (c : NRGBA64Color) : NRGBA64 :=
  if x < p.maxX ∧ y < p.maxY then { p with pix := p.pix.set (y * p.maxX + x) c } else p

/-- The method `p.At(x, y)`: zero outside the bounds. -/
def NRGBA64.At (p : NRGBA64) (x y : Nat) : NRGBA64Color :=
  if x < p.maxX ∧ y < p.maxY then p.pix.getD (y * p.maxX + x) ⟨0, 0, 0, 0⟩ else ⟨0, 0, 0, 0⟩

/-! ## The program -/

/-- The slice `coordsData` after the two loops of `main` (lines 54-60). -/
def coordsData (maxX maxY : Nat) : List ℚ :=
  (List.range maxY).foldl (fun (acc : List ℚ) (y : Nat) =>
    (List.range maxX).foldl (fun (acc : List ℚ) (x : Nat) =>
      acc ++ [1, float64 x, float64 y,
        float64 (wrapInt ((x : Int) * x)), float64 (wrapInt ((y : Int) * y)),
        float64 (wrapInt ((x : Int) * y))]) acc) []

/-- The design matrix `coords` of `main` (line 62). -/
def coords (maxX maxY : Nat) : Except String Dense :=
  NewDense (maxX * maxY) 6 (some (coordsData maxX maxY))

/-- The slice `values` after the two loops of `getValues` (lines 122-127). -/
def valuesData (i : Image) (cf : Color → ℚ) : List ℚ :=
  (List.range i.maxY).foldl (fun (values : List ℚ) (y : Nat) =>
    (List.range i.maxX).foldl (fun (values : List ℚ) (x : Nat) =>
      values ++ [cf (i.At x y)]) values) []

/-- The function `getValues`. -/
def getValues (i : Image) (cf : Color → ℚ) : Except String Dense :=
  NewDense (i.maxX * i.maxY) 1 (some (valuesData i cf))

/-- The function `getSolution`; the error returned by `Solve` is dropped. -/
def getSolution (solve : Solve) (i : Image) (coords : Dense) (cf : Color → ℚ) :
    Except String Dense :=
  match getValues i cf with
  | .error failure => .error failure
  | .ok values =>
    match NewDense 6 1 none with
    | .error failure => .error failure
    | .ok solution => .ok (solve solution coords values).1

/-- The function `pixel`. -/
def pixel (d : Dense) (x y : Int) : Nat :=
  uint16 (mathMax (add64 (add64 (add64 (add64 (add64 (some (d.At 0 0))
    (mul64 (d.At 1 0) (float64 x)))
    (mul64 (d.At 2 0) (float64 y)))
    (mul64 (d.At 3 0) (float64 (wrapInt (x * x)))))
    (mul64 (d.At 4 0) (float64 (wrapInt (y * y)))))
    (mul64 (d.At 5 0) (float64 (wrapInt (x * y))))))

/-- The closure passed for the red channel (lines 64-67). -/
def cfRed (c : Color) : ℚ := float64 (c.RGBA.1 : Nat)

/-- The closure passed for the green channel (lines 69-72). -/
def cfGreen (c : Color) : ℚ := float64 (c.RGBA.2.1 : Nat)

/-- The closure passed for the blue channel (lines 74-77). -/
def cfBlue (c : Color) : ℚ := float64 (c.RGBA.2.2.1 : Nat)

/-- The image `outImg` after the two loops of `main` (lines 79-84). -/
def outImg (maxX maxY : Nat) (red green blue : Dense) : NRGBA64 :=
  (List.range maxY).foldl (fun (img : NRGBA64) (y : Nat) =>
    (List.range maxX).foldl (fun (img : NRGBA64) (x : Nat) =>
      img.Set x y ⟨pixel red x y, pixel green x y, pixel blue x y, 0xffff⟩) img)
    (NewNRGBA64 maxX maxY)

/-- Lines 52-84 of `main`: from the decoded image to the image handed to the encoder. -/
def process (solve : Solve) (inImg : Image) : Except String NRGBA64 :=
  match coords inImg.maxX inImg.maxY with
  | .error failure => .error failure
  | .ok coords =>
    match getSolution solve inImg coords cfRed with
    | .error failure => .error failure
    | .ok red =>
      match getSolution solve inImg coords cfGreen with
      | .error failure => .error failure
      | .ok green =>
        match getSolution solve inImg coords cfBlue with
        | .error failure => .error failure
        | .ok blue => .ok (outImg inImg.maxX inImg.maxY red green blue)

/-! ## `main` and its environment -/

/-- What the operating system and the codec packages answer during one run. -/
structure Env where
  /-- Value of the flag `-input`. -/
  input : String
  /-- Value of the flag `-output`. -/
  output : String
  /-- Error of `os.Open(input)`, if any. -/
  openInput : Option String
  /-- Result of `image.Decode(f)`: the image and its format name, or an error. -/
  decode : Except String (Image × String)
  /-- Contents of the file at the output path before the run, if it exists. -/
  outputFile : Option (List Nat)
  /-- Error of `os.OpenFile(output, os.O_CREATE|os.O_WRONLY, 0755)`, if any. -/
  openOutput : Option String
  /-- The call `jpeg.Encode(out, outImg, nil)`: bytes written to `out` and the error. -/
  jpegEncode : NRGBA64 → List Nat × Option String
  /-- The call `tiff.Encode(out, outImg, ...)`: bytes written to `out` and the error. -/
  tiffEncode : NRGBA64 → List Nat × Option String
  /-- The method `(*mat.Dense).Solve`. -/
  solve : Solve

/-- What a run leaves behind. -/
structure Outcome where
  /-- Exit status of the process. -/
  status : Nat
  /-- Lines printed to standard error. -/
  stderr : List String
  /-- Contents of the file at the output path after the run, if it exists. -/
  outputFile : Option (List Nat)
deriving DecidableEq

/-- Writing `bytes` from offset 0 into a file opened without `O_TRUNC`. -/
def writeFromStart (old bytes : List Nat) : List Nat := bytes ++ old.drop bytes.length

/-- The function `main`.  A run-time error in lines 52-84 ends the process with status 2
before the output path is opened. -/
def main (e : Env) : Outcome :=
  if e.input.length = 0 then
    ⟨1, ["missing input file name", "usage"], e.outputFile⟩
  else if e.output.length = 0 then
    ⟨1, ["missing output file name", "usage"], e.outputFile⟩
  else
    match e.openInput with
    | some err => ⟨255, [err], e.outputFile⟩
    | none =>
      match e.decode with
      | .error err => ⟨255, [err], e.outputFile⟩
      | .ok (inImg, imageType) =>
        match process e.solve inImg with
        | .error failure => ⟨2, ["panic: " ++ failure], e.outputFile⟩
        | .ok outImg =>
          match e.openOutput with
          | some err =>
            ⟨2, ["cannot open output file " ++ e.output ++ " for writing: " ++ err],
              e.outputFile⟩
          | none =>
            let out := e.outputFile.getD []
            if imageType = "jpeg" then
              match e.jpegEncode outImg with
              | (bytes, some err) =>
                ⟨2, ["cannot write JPEG image to file " ++ e.output ++ ": " ++ err],
                  some (writeFromStart out bytes)⟩
              | (bytes, none) => ⟨0, [], some (writeFromStart out bytes)⟩
            else if imageType = "tiff" then
              match e.tiffEncode outImg with
              | (bytes, some err) =>
                ⟨2, ["cannot write TIFF image to file " ++ e.output ++ ": " ++ err],
                  some (writeFromStart out bytes)⟩
              | (bytes, none) => ⟨0, [], some (writeFromStart out bytes)⟩
            else
              ⟨0, ["unknown image format"], some out⟩

/-! ## Specification vocabulary -/

/-- The value `c0 + c1*x + c2*y + c3*x^2 + c4*y^2 + c5*x*y` of the model surface. -/
def surface (c0 c1 c2 c3 c4 c5 : ℚ) (x y : Int) : ℚ :=
  c0 + c1 * x + c2 * y + c3 * (x : ℚ) ^ 2 + c4 * (y : ℚ) ^ 2 + c5 * (x * y)

/-- Row `i` of `A` applied to the column vector `x`. -/
def predict (A x : Dense) (i : Nat) : ℚ :=
  ∑ j in Finset.range A.cols, A.At i j * x.At j 0

/-- The sum of squared residuals of `A x - b`. -/
def residual (A b x : Dense) : ℚ :=
  ∑ i in Finset.range A.rows, (predict A x i - b.At i 0) ^ 2

/-- The matrix `x` is a column vector that minimises the squared residual of `A x - b`. -/
def IsLeastSquares (A b x : Dense) : Prop :=
  x.rows = A.cols ∧ x.cols = 1 ∧ x.data.length = A.cols ∧
    ∀ z : Dense, residual A b x ≤ residual A b z

/-- The columns of `A` are linearly independent over the rationals. -/
def ColumnsIndependent (A : Dense) : Prop :=
  ∀ c : Nat → ℚ, (∀ i, i < A.rows → ∑ j in Finset.range A.cols, A.At i j * c j = 0) →
    ∀ j, j < A.cols → c j = 0

/-- The six values appended to `coordsData` for the pixel `(x, y)` (line 58). -/
def basisRow (x y : Int) : List ℚ :=
  [1, float64 x, float64 y, float64 (wrapInt (x * x)), float64 (wrapInt (y * y)),
    float64 (wrapInt (x * y))]

/-- The surface with the basis values the code uses, in exact arithmetic. -/
def fitted (f : Nat → ℚ) (x y : Int) : ℚ :=
  f 0 + f 1 * float64 x + f 2 * float64 y + f 3 * float64 (wrapInt (x * x)) +
    f 4 * float64 (wrapInt (y * y)) + f 5 * float64 (wrapInt (x * y))

/-- The matrix that `coords` holds when `NewDense` does not fail. -/
def designMatrix (maxX maxY : Nat) : Dense := ⟨maxX * maxY, 6, coordsData maxX maxY⟩

/-- The matrix that `getValues` returns when `NewDense` does not fail. -/
def valueVector (i : Image) (cf : Color → ℚ) : Dense :=
  ⟨i.maxX * i.maxY, 1, valuesData i cf⟩

/-- The receiver that `getSolution` hands to `Solve`: the 6x1 zero matrix. -/
def zeroSolution : Dense := ⟨6, 1, List.replicate (6 * 1) 0⟩

/-- The number is a `float64`: rounding leaves it unchanged. -/
def IsFloat64 (q : ℚ) : Prop := roundFloat64 q = some q

/-- No operation of `pixel` rounds at `(x, y)`: the five products and the five partial
sums of `c0 + c1*x + c2*y + c3*x^2 + c4*y^2 + c5*x*y`, taken left to right, are
`float64` values. -/
def EvaluatesExactly (c0 c1 c2 c3 c4 c5 : ℚ) (x y : Int) : Prop :=
  IsFloat64 (c1 * x) ∧ IsFloat64 (c0 + c1 * x) ∧
  IsFloat64 (c2 * y) ∧ IsFloat64 (c0 + c1 * x + c2 * y) ∧
  IsFloat64 (c3 * (x * x)) ∧ IsFloat64 (c0 + c1 * x + c2 * y + c3 * (x * x)) ∧
  IsFloat64 (c4 * (y * y)) ∧ IsFloat64 (c0 + c1 * x + c2 * y + c3 * (x * x) + c4 * (y * y)) ∧
  IsFloat64 (c5 * (x * y)) ∧
  IsFloat64 (c0 + c1 * x + c2 * y + c3 * (x * x) + c4 * (y * y) + c5 * (x * y))

/-- The `float64` value that `pixel` clamps and converts: the argument of `math.Max`. -/
def fittedFloat64 (d : Dense) (x y : Int) : Option ℚ :=
  add64 (add64 (add64 (add64 (add64 (some (d.At 0 0))
    (mul64 (d.At 1 0) (float64 x)))
    (mul64 (d.At 2 0) (float64 y)))
    (mul64 (d.At 3 0) (float64 (wrapInt (x * x)))))
    (mul64 (d.At 4 0) (float64 (wrapInt (y * y)))))
    (mul64 (d.At 5 0) (float64 (wrapInt (x * y))))

/-- The number is an integer or half an integer. -/
def HalfInteger (q : ℚ) : Prop := ∃ h : Int, q = (h : ℚ) / 2

/-! ## Sample inputs -/

/-- The 4x4 image whose three channels are `50 + 2x + 3y`. -/
def rampImage : Image :=
  ⟨4, 4, fun x y => ⟨50 + 2 * x + 3 * y, 50 + 2 * x + 3 * y, 50 + 2 * x + 3 * y, 0xffff⟩⟩

/-- A `Solve` that stores the coefficients `[50, 2, 3, 0, 0, 0]` and reports no error. -/
def rampSolve : Solve := fun _ _ _ => (⟨6, 1, [50, 2, 3, 0, 0, 0]⟩, none)

/-- The 3x3 image whose three channels are `10 + x + 2y + 3x^2 + 4y^2 + 5xy`. -/
def quadImage : Image :=
  ⟨3, 3, fun x y =>
    ⟨10 + x + 2 * y + 3 * x ^ 2 + 4 * y ^ 2 + 5 * x * y,
      10 + x + 2 * y + 3 * x ^ 2 + 4 * y ^ 2 + 5 * x * y,
      10 + x + 2 * y + 3 * x ^ 2 + 4 * y ^ 2 + 5 * x * y, 0xffff⟩⟩

/-- A `Solve` that stores `[10 - 2^-49, 1, 2, 3, 4, 5]`: the coefficients of `quadImage`
with the constant term one unit in the last place below 10. -/
def nearSolve : Solve := fun _ _ _ => (⟨6, 1, [10 - 1 / 2 ^ 49, 1, 2, 3, 4, 5]⟩, none)

/-- An image one pixel wide and seven pixels high. -/
def columnImage : Image := ⟨1, 7, fun _ y => ⟨100 * y, 200 * y, 300 * y, 0xffff⟩⟩

/-- A `Solve` that reports a `Condition` error and leaves the receiver as it was, the way
gonum's QR path returns when the triangular factor has a zero on its diagonal. -/
def singularSolve : Solve := fun receiver _ _ => (receiver, some SolveError.condition)

/-- A run in which every external call succeeds: the ramp image, decoded as TIFF, with no
file at the output path before the run.  The encoders write the four components of
every pixel. -/
def sampleEnv : Env where
  input := "in.tif"
  output := "out.tif"
  openInput := none
  decode := .ok (rampImage, "tiff")
  outputFile := none
  openOutput := none
  jpegEncode := fun p => (p.pix.flatMap (fun c => [c.R, c.G, c.B, c.A]), none)
  tiffEncode := fun p => (p.pix.flatMap (fun c => [c.R, c.G, c.B, c.A]), none)
  solve := rampSolve

/-- The sample run on the one-pixel-wide image with a solver that reports a singular
system. -/
def singularEnv : Env :=
  { sampleEnv with decode := .ok (columnImage, "tiff"), solve := singularSolve }

/-- The sample run on an image without pixels. -/
def emptyEnv : Env :=
  { sampleEnv with decode := .ok (⟨0, 0, fun _ _ => ⟨0, 0, 0, 0⟩⟩, "jpeg") }

/-! ## Auxiliary lemmas: numbers and loops -/

theorem wrapInt_of_lt (n : Int) (h0 : -2 ^ 63 ≤ n) (h1 : n < 2 ^ 63) : wrapInt n = n := by
  unfold wrapInt
  rw [Int.emod_eq_of_lt (by omega) (by omega)]
  omega

theorem dropBits_of_lt (m fuel : Nat) (h : m < 2 ^ 53) : dropBits m fuel = 0 := by
  cases fuel with
  | zero => rfl
  | succ k => rw [dropBits, if_pos h]

theorem roundMag_of_le (m : Nat) (h : m ≤ 2 ^ 53) : roundMag m = m := by
  rcases Nat.lt_or_ge m (2 ^ 53) with h1 | h1
  · simp [roundMag, dropBits_of_lt m 64 h1, Nat.mod_one]
  · have : m = 2 ^ 53 := le_antisymm h h1
    subst this
    decide

theorem float64_natCast (n : Nat) (h : n ≤ 2 ^ 53) : float64 (n : Int) = (n : ℚ) := by
  unfold float64
  have : ¬ ((n : Int) < 0) := by omega
  rw [if_neg this, Int.natAbs_ofNat, roundMag_of_le n h]

theorem foldl_append_flatMap {α β : Type} (f : β → List α) (l : List β) (acc : List α) :
    l.foldl (fun acc i => acc ++ f i) acc = acc ++ l.flatMap f := by
  induction l generalizing acc with
  | nil => simp
  | cons a l ih => simp [List.foldl_cons, ih, List.flatMap_cons, List.append_assoc]

theorem length_flatMap_range {α : Type} (f : Nat → List α) (k n : Nat)
    (hlen : ∀ i, (f i).length = k) : ((List.range n).flatMap f).length = n * k := by
  induction n with
  | zero => simp
  | succ n ih =>
    rw [List.range_succ, List.flatMap_append, List.length_append, ih]
    simp [hlen, Nat.succ_mul]

theorem getD_flatMap_range {α : Type} (f : Nat → List α) (k n : Nat) (d : α)
    (hlen : ∀ i, (f i).length = k) (i j : Nat) (hi : i < n) (hj : j < k) :
    ((List.range n).flatMap f).getD (i * k + j) d = (f i).getD j d := by
  induction n with
  | zero => omega
  | succ n ih =>
    rw [List.range_succ, List.flatMap_append]
    rcases Nat.lt_or_ge i n with h | h
    · have hlt : i * k + j < ((List.range n).flatMap f).length := by
        rw [length_flatMap_range f k n hlen]
        calc i * k + j < i * k + k := by omega
          _ = (i + 1) * k := by ring
          _ ≤ n * k := Nat.mul_le_mul_right k h
      rw [List.getD_append _ _ _ _ hlt]
      exact ih h
    · have hin : i = n := by omega
      subst hin
      have hge : ((List.range i).flatMap f).length ≤ i * k + j := by
        rw [length_flatMap_range f k i hlen]; omega
      rw [List.getD_append_right _ _ _ _ hge, length_flatMap_range f k i hlen]
      simp

theorem coordsData_eq (maxX maxY : Nat) :
    coordsData maxX maxY =
      (List.range maxY).flatMap (fun y => (List.range maxX).flatMap (fun x => basisRow x y)) := by
  unfold coordsData
  have inner : ∀ (y : Nat) (acc : List ℚ),
      (List.range maxX).foldl (fun (acc : List ℚ) (x : Nat) =>
        acc ++ [1, float64 x, float64 y,
          float64 (wrapInt ((x : Int) * x)), float64 (wrapInt ((y : Int) * y)),
          float64 (wrapInt ((x : Int) * y))]) acc
        = acc ++ (List.range maxX).flatMap (fun x => basisRow x y) := by
    intro y acc
    exact foldl_append_flatMap (fun x : Nat => basisRow x y) (List.range maxX) acc
  have outer : (fun (acc : List ℚ) (y : Nat) =>
      (List.range maxX).foldl (fun (acc : List ℚ) (x : Nat) =>
        acc ++ [1, float64 x, float64 y,
          float64 (wrapInt ((x : Int) * x)), float64 (wrapInt ((y : Int) * y)),
          float64 (wrapInt ((x : Int) * y))]) acc)
      = fun (acc : List ℚ) (y : Nat) =>
          acc ++ (List.range maxX).flatMap (fun x : Nat => basisRow x y) := by
    funext acc y
    exact inner y acc
  rw [outer,
    foldl_append_flatMap (fun y : Nat => (List.range maxX).flatMap (fun x : Nat => basisRow x y))]
  simp

theorem coords_At (maxX maxY x y j : Nat) (hx : x < maxX) (hy : y < maxY) (hj : j < 6) :
    (designMatrix maxX maxY).At (y * maxX + x) j = (basisRow x y).getD j 0 := by
  have hrow : ∀ (a b : Nat), (basisRow a b).length = 6 := fun _ _ => rfl
  have hblock : ∀ b : Nat,
      ((List.range maxX).flatMap (fun a : Nat => basisRow a b)).length = maxX * 6 :=
    fun b => length_flatMap_range (fun a : Nat => basisRow a b) 6 maxX (fun a => hrow a b)
  have hidx : (y * maxX + x) * 6 + j = y * (maxX * 6) + (x * 6 + j) := by ring
  have hin : x * 6 + j < maxX * 6 := by omega
  show (coordsData maxX maxY).getD ((y * maxX + x) * 6 + j) 0 = _
  rw [coordsData_eq, hidx,
    getD_flatMap_range (fun b : Nat => (List.range maxX).flatMap (fun a : Nat => basisRow a b))
      (maxX * 6) maxY 0 hblock y (x * 6 + j) hy hin]
  exact getD_flatMap_range (fun a : Nat => basisRow a y) 6 maxX 0 (fun a => hrow a y) x j hx hj

theorem valuesData_eq (i : Image) (cf : Color → ℚ) :
    valuesData i cf =
      (List.range i.maxY).flatMap (fun y => (List.range i.maxX).flatMap
        (fun x => [cf (i.At x y)])) := by
  unfold valuesData
  have inner : ∀ (y : Nat) (acc : List ℚ),
      (List.range i.maxX).foldl (fun (values : List ℚ) (x : Nat) =>
        values ++ [cf (i.At x y)]) acc
        = acc ++ (List.range i.maxX).flatMap (fun x => [cf (i.At x y)]) := by
    intro y acc
    exact foldl_append_flatMap (fun x : Nat => [cf (i.At x y)]) (List.range i.maxX) acc
  have outer : (fun (values : List ℚ) (y : Nat) =>
      (List.range i.maxX).foldl
        (fun (values : List ℚ) (x : Nat) => values ++ [cf (i.At x y)]) values)
      = fun (values : List ℚ) (y : Nat) =>
          values ++ (List.range i.maxX).flatMap (fun x => [cf (i.At x y)]) := by
    funext acc y
    exact inner y acc
  rw [outer, foldl_append_flatMap
    (fun y : Nat => (List.range i.maxX).flatMap (fun x => [cf (i.At x y)]))]
  simp

theorem getValues_length (i : Image) (cf : Color → ℚ) :
    (valueVector i cf).data.length = i.maxX * i.maxY := by
  show (valuesData i cf).length = _
  rw [valuesData_eq]
  have hblock : ∀ b : Nat,
      ((List.range i.maxX).flatMap (fun a : Nat => [cf (i.At a b)])).length = i.maxX * 1 :=
    fun b => length_flatMap_range (fun a : Nat => [cf (i.At a b)]) 1 i.maxX (fun _ => rfl)
  rw [length_flatMap_range _ (i.maxX * 1) i.maxY hblock]
  ring

theorem getValues_At (i : Image) (cf : Color → ℚ) (x y : Nat)
    (hx : x < i.maxX) (hy : y < i.maxY) :
    (valueVector i cf).At (y * i.maxX + x) 0 = cf (i.At x y) := by
  have hblock : ∀ b : Nat,
      ((List.range i.maxX).flatMap (fun a : Nat => [cf (i.At a b)])).length = i.maxX * 1 :=
    fun b => length_flatMap_range (fun a : Nat => [cf (i.At a b)]) 1 i.maxX (fun _ => rfl)
  have hcols : (valueVector i cf).cols = 1 := rfl
  have hidx : (y * i.maxX + x) * 1 + 0 = y * (i.maxX * 1) + (x * 1 + 0) := by ring
  unfold Dense.At
  rw [hcols]
  show (valuesData i cf).getD _ 0 = _
  rw [valuesData_eq, hidx,
    getD_flatMap_range
      (fun b : Nat => (List.range i.maxX).flatMap (fun a : Nat => [cf (i.At a b)]))
      (i.maxX * 1) i.maxY 0 hblock y (x * 1 + 0) hy (by omega),
    getD_flatMap_range (fun a : Nat => [cf (i.At a y)]) 1 i.maxX 0 (fun _ => rfl) x 0 hx
      (by omega)]
  rfl

theorem getD_six {α : Type} (a0 a1 a2 a3 a4 a5 d : α) :
    [a0, a1, a2, a3, a4, a5].getD 0 d = a0 ∧ [a0, a1, a2, a3, a4, a5].getD 1 d = a1 ∧
    [a0, a1, a2, a3, a4, a5].getD 2 d = a2 ∧ [a0, a1, a2, a3, a4, a5].getD 3 d = a3 ∧
    [a0, a1, a2, a3, a4, a5].getD 4 d = a4 ∧ [a0, a1, a2, a3, a4, a5].getD 5 d = a5 :=
  ⟨rfl, rfl, rfl, rfl, rfl, rfl⟩

theorem coords_row_sum (maxX maxY x y : Nat) (hx : x < maxX) (hy : y < maxY) (f : Nat → ℚ) :
    ∑ j in Finset.range (designMatrix maxX maxY).cols, (designMatrix maxX maxY).At (y * maxX + x) j * f j
      = fitted f x y := by
  have hc : (designMatrix maxX maxY).cols = 6 := rfl
  rw [hc]
  simp only [Finset.sum_range_succ, Finset.sum_range_zero]
  rw [coords_At maxX maxY x y 0 hx hy (by omega), coords_At maxX maxY x y 1 hx hy (by omega),
    coords_At maxX maxY x y 2 hx hy (by omega), coords_At maxX maxY x y 3 hx hy (by omega),
    coords_At maxX maxY x y 4 hx hy (by omega), coords_At maxX maxY x y 5 hx hy (by omega)]
  obtain ⟨h0, h1, h2, h3, h4, h5⟩ := getD_six (1 : ℚ) (float64 x) (float64 y)
    (float64 (wrapInt ((x : Int) * x))) (float64 (wrapInt ((y : Int) * y)))
    (float64 (wrapInt ((x : Int) * y))) 0
  unfold basisRow fitted
  rw [h0, h1, h2, h3, h4, h5]
  ring
theorem predict_coords (maxX maxY x y : Nat) (hx : x < maxX) (hy : y < maxY) (d : Dense) :
    predict (designMatrix maxX maxY) d (y * maxX + x) = fitted (fun j => d.At j 0) x y :=
  coords_row_sum maxX maxY x y hx hy (fun j => d.At j 0)

theorem float64_wrap_mul (a b : Nat) (hab : a * b ≤ 2 ^ 53) :
    float64 (wrapInt ((a : Int) * b)) = (a : ℚ) * b := by
  have h1 : ((a : Int) * b) = ((a * b : Nat) : Int) := by push_cast; ring
  have h2 : (-2 ^ 63 : Int) ≤ ((a * b : Nat) : Int) := by
    have : (0 : Int) ≤ ((a * b : Nat) : Int) := Int.ofNat_nonneg _
    omega
  have h3 : ((a * b : Nat) : Int) < 2 ^ 63 := by
    have : ((a * b : Nat) : Int) ≤ ((2 ^ 53 : Nat) : Int) := Int.ofNat_le.mpr hab
    norm_num at this ⊢
    omega
  rw [h1, wrapInt_of_lt _ h2 h3, float64_natCast _ hab]
  push_cast; ring

theorem fitted_small (f : Nat → ℚ) (x y : Nat) (hxx : x * x ≤ 2 ^ 53) (hyy : y * y ≤ 2 ^ 53)
    (hxy : x * y ≤ 2 ^ 53) :
    fitted f x y = surface (f 0) (f 1) (f 2) (f 3) (f 4) (f 5) x y := by
  have hx : x ≤ 2 ^ 53 := le_trans (Nat.le_mul_self x) hxx
  have hy : y ≤ 2 ^ 53 := le_trans (Nat.le_mul_self y) hyy
  unfold fitted surface
  rw [float64_wrap_mul x x hxx, float64_wrap_mul y y hyy, float64_wrap_mul x y hxy,
    float64_natCast x hx, float64_natCast y hy]
  push_cast
  ring

theorem index_lt (maxX maxY x y : Nat) (hx : x < maxX) (hy : y < maxY) :
    y * maxX + x < maxX * maxY := by
  calc y * maxX + x < y * maxX + maxX := by omega
    _ = maxX * (y + 1) := by ring
    _ ≤ maxX * maxY := Nat.mul_le_mul_left maxX hy

theorem fitted_grid3 (f : Nat → ℚ) (x y : Nat) (hx : x < 3) (hy : y < 3) :
    fitted f x y = surface (f 0) (f 1) (f 2) (f 3) (f 4) (f 5) x y := by
  have h1 : x * x ≤ 2 * 2 := Nat.mul_le_mul (by omega) (by omega)
  have h2 : y * y ≤ 2 * 2 := Nat.mul_le_mul (by omega) (by omega)
  have h3 : x * y ≤ 2 * 2 := Nat.mul_le_mul (by omega) (by omega)
  have h4 : 2 * 2 ≤ 2 ^ 53 := by norm_num
  exact fitted_small f x y (le_trans h1 h4) (le_trans h2 h4) (le_trans h3 h4)

/-- A coefficient vector whose fitted surface vanishes on the 3x3 corner of the grid is zero. -/
theorem fitted_kernel_zero (f : Nat → ℚ)
    (h : ∀ x y : Nat, x < 3 → y < 3 → fitted f x y = 0) : ∀ j, j < 6 → f j = 0 := by
  have e := fun (x y : Nat) (hx : x < 3) (hy : y < 3) =>
    (fitted_grid3 f x y hx hy).symm.trans (h x y hx hy)
  have r00 := e 0 0 (by omega) (by omega)
  have r10 := e 1 0 (by omega) (by omega)
  have r20 := e 2 0 (by omega) (by omega)
  have r01 := e 0 1 (by omega) (by omega)
  have r02 := e 0 2 (by omega) (by omega)
  have r11 := e 1 1 (by omega) (by omega)
  simp only [surface] at r00 r10 r20 r01 r02 r11
  norm_num at r00 r10 r20 r01 r02 r11
  intro j hj
  interval_cases j <;> linarith

theorem columnsIndependent_of_ge (maxX maxY : Nat) (hX : 3 ≤ maxX) (hY : 3 ≤ maxY) :
    ColumnsIndependent (designMatrix maxX maxY) := by
  intro c hc j hj
  refine fitted_kernel_zero c ?_ j hj
  intro x y hx hy
  rw [← coords_row_sum maxX maxY x y (by omega) (by omega) c]
  exact hc _ (index_lt maxX maxY x y (by omega) (by omega))

theorem index_decompose (maxX maxY i : Nat) (hi : i < maxX * maxY) :
    i / maxX * maxX + i % maxX = i ∧ i % maxX < maxX ∧ i / maxX < maxY := by
  have hpos : 0 < maxX := by
    rcases Nat.eq_zero_or_pos maxX with h | h
    · subst h; simp at hi
    · exact h
  refine ⟨by rw [Nat.mul_comm]; exact Nat.div_add_mod i maxX, Nat.mod_lt _ hpos, ?_⟩
  exact Nat.div_lt_of_lt_mul hi

theorem not_columnsIndependent_of_width (maxX maxY : Nat) (hX : maxX < 3) :
    ¬ ColumnsIndependent (designMatrix maxX maxY) := by
  intro hind
  have hcols : 1 < (designMatrix maxX maxY).cols := by show 1 < 6; omega
  have hz := hind (fun j => if j = 1 then 1 else if j = 3 then -1 else 0) ?_ 1 hcols
  · norm_num at hz
  · intro i hi
    obtain ⟨he, hx, hy⟩ := index_decompose maxX maxY i hi
    rw [← he, coords_row_sum maxX maxY _ _ hx hy]
    have hx2 : i % maxX < 2 := by omega
    have hsq : (i % maxX) * (i % maxX) = i % maxX := by
      interval_cases (i % maxX) <;> rfl
    have h53 : i % maxX ≤ 2 ^ 53 := le_trans (le_of_lt hx2) (by norm_num)
    unfold fitted
    rw [float64_wrap_mul _ _ (by rw [hsq]; exact h53), float64_natCast _ h53]
    have hq : ((i % maxX : Nat) : ℚ) * ((i % maxX : Nat) : ℚ) = ((i % maxX : Nat) : ℚ) := by
      exact_mod_cast hsq
    simp only [if_true, if_false]
    norm_num
    linarith

theorem not_columnsIndependent_of_height (maxX maxY : Nat) (hY : maxY < 3) :
    ¬ ColumnsIndependent (designMatrix maxX maxY) := by
  intro hind
  have hcols : 2 < (designMatrix maxX maxY).cols := by show 2 < 6; omega
  have hz := hind (fun j => if j = 2 then 1 else if j = 4 then -1 else 0) ?_ 2 hcols
  · norm_num at hz
  · intro i hi
    obtain ⟨he, hx, hy⟩ := index_decompose maxX maxY i hi
    rw [← he, coords_row_sum maxX maxY _ _ hx hy]
    have hy2 : i / maxX < 2 := by omega
    have hsq : (i / maxX) * (i / maxX) = i / maxX := by
      interval_cases (i / maxX) <;> rfl
    have h53 : i / maxX ≤ 2 ^ 53 := le_trans (le_of_lt hy2) (by norm_num)
    unfold fitted
    rw [float64_wrap_mul (i / maxX) (i / maxX) (by rw [hsq]; exact h53),
      float64_natCast (i / maxX) h53]
    have hq : ((i / maxX : Nat) : ℚ) * ((i / maxX : Nat) : ℚ) = ((i / maxX : Nat) : ℚ) := by
      exact_mod_cast hsq
    simp only [if_true, if_false]
    norm_num
    linarith

theorem coef_At (c0 c1 c2 c3 c4 c5 : ℚ) :
    (⟨6, 1, [c0, c1, c2, c3, c4, c5]⟩ : Dense).At 0 0 = c0 ∧
    (⟨6, 1, [c0, c1, c2, c3, c4, c5]⟩ : Dense).At 1 0 = c1 ∧
    (⟨6, 1, [c0, c1, c2, c3, c4, c5]⟩ : Dense).At 2 0 = c2 ∧
    (⟨6, 1, [c0, c1, c2, c3, c4, c5]⟩ : Dense).At 3 0 = c3 ∧
    (⟨6, 1, [c0, c1, c2, c3, c4, c5]⟩ : Dense).At 4 0 = c4 ∧
    (⟨6, 1, [c0, c1, c2, c3, c4, c5]⟩ : Dense).At 5 0 = c5 :=
  getD_six c0 c1 c2 c3 c4 c5 0

theorem float64_zero : float64 0 = 0 := by
  have h := float64_natCast 0 (Nat.zero_le _)
  simpa using h

theorem float64_wrapped_square :
    float64 (wrapInt (3037000500 * 3037000500)) = -9223372036709301248 := by
  have h : wrapInt (3037000500 * 3037000500) = -9223372036709301616 := by decide
  rw [h]
  unfold float64
  rw [if_pos (by decide)]
  have h2 : roundMag (Int.natAbs (-9223372036709301616)) = 9223372036709301248 := by decide
  rw [h2]
  norm_num

theorem getD_set_eq {α : Type} (l : List α) (i : Nat) (a d : α) (h : i < l.length) :
    (l.set i a).getD i d = a := by
  rw [List.getD_eq_getElem?_getD, List.getElem?_set_self h]
  rfl

theorem getD_set_ne {α : Type} (l : List α) (i j : Nat) (a d : α) (h : i ≠ j) :
    (l.set i a).getD j d = l.getD j d := by
  rw [List.getD_eq_getElem?_getD, List.getElem?_set_ne h, List.getD_eq_getElem?_getD]

/-- One row of the assembly loop: the pixels `y*W .. y*W + n - 1` are written. -/
theorem set_row_loop (px : Nat → Nat → NRGBA64Color) (W H y : Nat) (hy : y < H)
    (d : NRGBA64Color) (n : Nat) (hn : n ≤ W) (img : NRGBA64)
    (hW : img.maxX = W) (hH : img.maxY = H) (hlen : img.pix.length = W * H) :
    ((List.range n).foldl (fun (img : NRGBA64) (x : Nat) => img.Set x y (px x y)) img).maxX = W ∧
    ((List.range n).foldl (fun (img : NRGBA64) (x : Nat) => img.Set x y (px x y)) img).maxY = H ∧
    ((List.range n).foldl (fun (img : NRGBA64) (x : Nat) => img.Set x y (px x y)) img).pix.length
      = W * H ∧
    ∀ k, ((List.range n).foldl (fun (img : NRGBA64) (x : Nat) =>
        img.Set x y (px x y)) img).pix.getD k d
      = if y * W ≤ k ∧ k < y * W + n then px (k - y * W) y else img.pix.getD k d := by
  induction n with
  | zero =>
    refine ⟨hW, hH, hlen, fun k => ?_⟩
    rw [if_neg (by omega)]
    rfl
  | succ n ih =>
    obtain ⟨iW, iH, ilen, iget⟩ := ih (by omega)
    rw [List.range_succ, List.foldl_append]
    simp only [List.foldl_cons, List.foldl_nil]
    generalize (List.range n).foldl (fun (img : NRGBA64) (x : Nat) =>
      img.Set x y (px x y)) img = r at iW iH ilen iget
    have hin : n < r.maxX ∧ y < r.maxY := by rw [iW, iH]; exact ⟨by omega, hy⟩
    have hidx : y * W + n < r.pix.length := by
      rw [ilen]; exact index_lt W H n y (by omega) hy
    unfold NRGBA64.Set
    rw [if_pos hin, iW]
    refine ⟨rfl, iH, by simp [ilen], fun k => ?_⟩
    show (r.pix.set (y * W + n) (px n y)).getD k d = _
    rcases Nat.lt_trichotomy k (y * W + n) with h | h | h
    · rw [getD_set_ne _ _ _ _ _ (by omega), iget k]
      by_cases hk : y * W ≤ k
      · rw [if_pos ⟨hk, h⟩, if_pos ⟨hk, by omega⟩]
      · rw [if_neg (fun c => hk c.1), if_neg (fun c => hk c.1)]
    · subst h
      rw [getD_set_eq _ _ _ _ hidx, if_pos ⟨by omega, by omega⟩]
      congr 1
      omega
    · rw [getD_set_ne _ _ _ _ _ (by omega), iget k, if_neg (by omega), if_neg (by omega)]
theorem index_mod_div (W m k : Nat) (h0 : m * W ≤ k) (h1 : k < m * W + W) :
    k % W = k - m * W ∧ k / W = m := by
  have hW : 0 < W := by omega
  have hk : k = (k - m * W) + m * W := by omega
  have ht : k - m * W < W := by omega
  constructor
  · conv_lhs => rw [hk]
    rw [Nat.add_mul_mod_self_right, Nat.mod_eq_of_lt ht]
  · conv_lhs => rw [hk]
    rw [Nat.add_mul_div_right _ _ hW, Nat.div_eq_of_lt ht, Nat.zero_add]

/-- The assembly loops: after `m` rows the first `m*W` pixels are written. -/
theorem set_all_loop (px : Nat → Nat → NRGBA64Color) (W H : Nat) (d : NRGBA64Color)
    (m : Nat) (hm : m ≤ H) :
    ((List.range m).foldl (fun (img : NRGBA64) (y : Nat) =>
      (List.range W).foldl (fun (img : NRGBA64) (x : Nat) => img.Set x y (px x y)) img)
      (NewNRGBA64 W H)).maxX = W ∧
    ((List.range m).foldl (fun (img : NRGBA64) (y : Nat) =>
      (List.range W).foldl (fun (img : NRGBA64) (x : Nat) => img.Set x y (px x y)) img)
      (NewNRGBA64 W H)).maxY = H ∧
    ((List.range m).foldl (fun (img : NRGBA64) (y : Nat) =>
      (List.range W).foldl (fun (img : NRGBA64) (x : Nat) => img.Set x y (px x y)) img)
      (NewNRGBA64 W H)).pix.length = W * H ∧
    ∀ k, ((List.range m).foldl (fun (img : NRGBA64) (y : Nat) =>
      (List.range W).foldl (fun (img : NRGBA64) (x : Nat) => img.Set x y (px x y)) img)
      (NewNRGBA64 W H)).pix.getD k d
      = if k < m * W then px (k % W) (k / W) else (NewNRGBA64 W H).pix.getD k d := by
  induction m with
  | zero =>
    refine ⟨rfl, rfl, by simp [NewNRGBA64], fun k => ?_⟩
    rw [if_neg (by omega)]
    rfl
  | succ m ih =>
    obtain ⟨iW, iH, ilen, iget⟩ := ih (by omega)
    rw [List.range_succ, List.foldl_append]
    simp only [List.foldl_cons, List.foldl_nil]
    generalize (List.range m).foldl (fun (img : NRGBA64) (y : Nat) =>
      (List.range W).foldl (fun (img : NRGBA64) (x : Nat) => img.Set x y (px x y)) img)
      (NewNRGBA64 W H) = r at iW iH ilen iget
    obtain ⟨rW, rH, rlen, rget⟩ :=
      set_row_loop px W H m (by omega) d W (le_refl W) r iW iH ilen
    refine ⟨rW, rH, rlen, fun k => ?_⟩
    rw [rget k]
    have hsucc : (m + 1) * W = m * W + W := by ring
    by_cases hk : m * W ≤ k ∧ k < m * W + W
    · obtain ⟨hmod, hdiv⟩ := index_mod_div W m k hk.1 hk.2
      rw [if_pos hk, if_pos (by omega), hmod, hdiv]
    · rw [if_neg hk, iget k]
      by_cases hlt : k < m * W
      · rw [if_pos hlt, if_pos (by omega)]
      · rw [if_neg hlt, if_neg (by omega)]

theorem outImg_spec (maxX maxY : Nat) (red green blue : Dense) :
    (outImg maxX maxY red green blue).maxX = maxX ∧
    (outImg maxX maxY red green blue).maxY = maxY ∧
    (outImg maxX maxY red green blue).pix.length = maxX * maxY ∧
    ∀ x y, x < maxX → y < maxY →
      (outImg maxX maxY red green blue).At x y
        = ⟨pixel red x y, pixel green x y, pixel blue x y, 0xffff⟩ := by
  obtain ⟨hW, hH, hlen, hget⟩ := set_all_loop
    (fun x y => ⟨pixel red x y, pixel green x y, pixel blue x y, 0xffff⟩) maxX maxY
    ⟨0, 0, 0, 0⟩ maxY (le_refl _)
  refine ⟨hW, hH, hlen, fun x y hx hy => ?_⟩
  unfold NRGBA64.At
  have hW2 : (outImg maxX maxY red green blue).maxX = maxX := hW
  have hH2 : (outImg maxX maxY red green blue).maxY = maxY := hH
  rw [hW2, hH2, if_pos ⟨hx, hy⟩]
  have hk := hget (y * maxX + x)
  have hlt : y * maxX + x < maxY * maxX := by
    rw [Nat.mul_comm maxY]; exact index_lt maxX maxY x y hx hy
  rw [if_pos hlt] at hk
  obtain ⟨hmod, hdiv⟩ := index_mod_div maxX y (y * maxX + x) (by omega) (by omega)
  rw [hmod, hdiv, Nat.add_sub_cancel_left] at hk
  exact hk

/-- A quadratic that takes natural values below `2^32` at every point of `[0, W)` has no
quadratic term once `W` reaches past the square root of `2^53`, and no linear term once
`W` reaches past `2^53`. -/
theorem quadratic_bounded (a b c : ℚ) (W : Nat) (g : Nat → Nat)
    (hb : ∀ t, t < W → g t < 2 ^ 32)
    (hs : ∀ t, t < W → (g t : ℚ) = a + b * t + c * (t : ℚ) ^ 2) (x : Nat) (hx : x < W) :
    (2 ^ 53 < x * x → c = 0) ∧ (2 ^ 53 < x → b = 0) := by
  have hc : 2 ^ 53 < x * x → c = 0 := by
    intro hxx
    have hbig : 2 ^ 26 < x := by
      by_contra hle
      have h1 : x * x ≤ 2 ^ 26 * 2 ^ 26 := Nat.mul_le_mul (by omega) (by omega)
      norm_num at h1 hxx
      omega
    have e0 := hs 0 (by omega)
    have e1 := hs 1 (by omega)
    have e2 := hs 2 (by omega)
    have eN := hs 33554432 (by norm_num at hbig ⊢; omega)
    have eM := hs 67108864 (by norm_num at hbig ⊢; omega)
    have b0 := hb 0 (by omega)
    have b1 := hb 1 (by omega)
    have b2 := hb 2 (by omega)
    have bN := hb 33554432 (by norm_num at hbig ⊢; omega)
    have bM := hb 67108864 (by norm_num at hbig ⊢; omega)
    have key : (((g 2 : Int) - 2 * g 1 + g 0) * 2 ^ 50 : ℚ)
        = (((g 67108864 : Int) - 2 * g 33554432 + g 0 : Int) : ℚ) := by
      push_cast
      rw [e0, e1, e2, eN, eM]
      push_cast
      ring
    have keyZ : ((g 2 : Int) - 2 * g 1 + g 0) * 2 ^ 50
        = ((g 67108864 : Int) - 2 * g 33554432 + g 0) := by exact_mod_cast key
    have hD : (g 2 : Int) - 2 * g 1 + g 0 = 0 := by
      norm_num at b0 b1 b2 bN bM keyZ
      omega
    have hDq : ((g 2 : ℚ) - 2 * g 1 + g 0) = 0 := by exact_mod_cast hD
    rw [e0, e1, e2] at hDq
    push_cast at hDq
    linarith
  refine ⟨hc, fun hbigx => ?_⟩
  have hc0 : c = 0 := hc (lt_of_lt_of_le hbigx (Nat.le_mul_self x))
  have e0 := hs 0 (by omega)
  have e1 := hs 1 (by omega)
  have eM := hs 8589934592 (by norm_num at hbigx ⊢; omega)
  have b0 := hb 0 (by omega)
  have b1 := hb 1 (by omega)
  have bM := hb 8589934592 (by norm_num at hbigx ⊢; omega)
  have key : (((g 1 : Int) - g 0) * 2 ^ 33 : ℚ) = (((g 8589934592 : Int) - g 0 : Int) : ℚ) := by
    push_cast
    rw [e0, e1, eM, hc0]
    push_cast
    ring
  have keyZ : ((g 1 : Int) - g 0) * 2 ^ 33 = ((g 8589934592 : Int) - g 0) := by
    exact_mod_cast key
  have hD : (g 1 : Int) - g 0 = 0 := by
    norm_num at b0 b1 bM keyZ
    omega
  have hDq : ((g 1 : ℚ) - g 0) = 0 := by exact_mod_cast hD
  rw [e0, e1, hc0] at hDq
  push_cast at hDq
  linarith
theorem int_product_small (D P E : Int) (h : D * P = E) (hP : 2 ^ 53 < P)
    (hlo : -2 ^ 33 < E) (hhi : E < 2 ^ 33) : D = 0 := by
  have hP0 : (0 : Int) ≤ P := le_of_lt (lt_trans (by norm_num) hP)
  rcases lt_trichotomy D 0 with hd | hd | hd
  · have h1 : D ≤ -1 := by omega
    have h2 := mul_le_mul_of_nonneg_right h1 hP0
    rw [h] at h2
    norm_num at hP hlo hhi
    linarith
  · exact hd
  · have h1 : 1 ≤ D := by omega
    have h2 := mul_le_mul_of_nonneg_right h1 hP0
    rw [h] at h2
    norm_num at hP hlo hhi
    linarith

/-- A surface that takes natural values below `2^32` on the whole grid has no mixed term
once some product `x*y` of grid coordinates exceeds `2^53`. -/
theorem mixed_bounded (c0 c1 c2 c3 c4 c5 : ℚ) (W H : Nat) (n : Nat → Nat → Nat)
    (hb : ∀ x y, x < W → y < H → n x y < 2 ^ 32)
    (hs : ∀ x y, x < W → y < H → (n x y : ℚ) = surface c0 c1 c2 c3 c4 c5 x y)
    (x y : Nat) (hx : x < W) (hy : y < H) (hxy : 2 ^ 53 < x * y) : c5 = 0 := by
  have hx1 : 1 ≤ x := by
    rcases Nat.eq_zero_or_pos x with h | h
    · subst h; simp at hxy
    · exact h
  have hy1 : 1 ≤ y := by
    rcases Nat.eq_zero_or_pos y with h | h
    · subst h; simp at hxy
    · exact h
  have e00 := hs 0 0 (by omega) (by omega)
  have e10 := hs 1 0 (by omega) (by omega)
  have e01 := hs 0 1 (by omega) (by omega)
  have e11 := hs 1 1 (by omega) (by omega)
  have ex0 := hs x 0 hx (by omega)
  have e0y := hs 0 y (by omega) hy
  have exy := hs x y hx hy
  have b00 := hb 0 0 (by omega) (by omega)
  have bx0 := hb x 0 hx (by omega)
  have b0y := hb 0 y (by omega) hy
  have bxy := hb x y hx hy
  simp only [surface] at e00 e10 e01 e11 ex0 e0y exy
  push_cast at e00 e10 e01 e11 ex0 e0y exy
  have key : ((((n 1 1 : Int) - n 1 0 - n 0 1 + n 0 0) * ((x * y : Nat) : Int) : Int) : ℚ)
      = ((((n x y : Int) - n x 0 - n 0 y + n 0 0) : Int) : ℚ) := by
    push_cast
    rw [e00, e10, e01, e11, ex0, e0y, exy]
    ring
  have keyZ : ((n 1 1 : Int) - n 1 0 - n 0 1 + n 0 0) * ((x * y : Nat) : Int)
      = ((n x y : Int) - n x 0 - n 0 y + n 0 0) := by exact_mod_cast key
  have hP : (2 ^ 53 : Int) < ((x * y : Nat) : Int) := by exact_mod_cast hxy
  have hD : (n 1 1 : Int) - n 1 0 - n 0 1 + n 0 0 = 0 := by
    have B00 : (n 0 0 : Int) < 2 ^ 32 := by exact_mod_cast b00
    have Bx0 : (n x 0 : Int) < 2 ^ 32 := by exact_mod_cast bx0
    have B0y : (n 0 y : Int) < 2 ^ 32 := by exact_mod_cast b0y
    have Bxy : (n x y : Int) < 2 ^ 32 := by exact_mod_cast bxy
    have N00 : (0 : Int) ≤ n 0 0 := Int.ofNat_nonneg _
    have Nx0 : (0 : Int) ≤ n x 0 := Int.ofNat_nonneg _
    have N0y : (0 : Int) ≤ n 0 y := Int.ofNat_nonneg _
    have Nxy : (0 : Int) ≤ n x y := Int.ofNat_nonneg _
    exact int_product_small _ _ _ keyZ hP (by omega) (by omega)
  have hDq : ((n 1 1 : ℚ) - n 1 0 - n 0 1 + n 0 0) = 0 := by exact_mod_cast hD
  rw [e00, e10, e01, e11] at hDq
  linarith

/-- On a grid where the surface takes natural values below `2^32`, the value the code
computes at a grid point is the surface value, whatever the size of the grid. -/
theorem fitted_eq_surface_of_bounded (f : Nat → ℚ) (W H : Nat) (n : Nat → Nat → Nat)
    (hb : ∀ x y, x < W → y < H → n x y < 2 ^ 32)
    (hs : ∀ x y, x < W → y < H →
      (n x y : ℚ) = surface (f 0) (f 1) (f 2) (f 3) (f 4) (f 5) x y)
    (x y : Nat) (hx : x < W) (hy : y < H) :
    fitted f x y = surface (f 0) (f 1) (f 2) (f 3) (f 4) (f 5) x y := by
  have hW : 0 < W := by omega
  have hH : 0 < H := by omega
  have qx := quadratic_bounded (f 0) (f 1) (f 3) W (fun t => n t 0)
    (fun t ht => hb t 0 ht hH)
    (fun t ht => by
      have h := hs t 0 ht hH
      simp only [surface] at h
      push_cast at h
      rw [h]; ring) x hx
  have qy := quadratic_bounded (f 0) (f 2) (f 4) H (fun t => n 0 t)
    (fun t ht => hb 0 t hW ht)
    (fun t ht => by
      have h := hs 0 t hW ht
      simp only [surface] at h
      push_cast at h
      rw [h]; ring) y hy
  have t1 : f 1 * float64 x = f 1 * x := by
    by_cases h : x ≤ 2 ^ 53
    · rw [float64_natCast x h]
    · rw [qx.2 (by omega)]; ring
  have t2 : f 2 * float64 y = f 2 * y := by
    by_cases h : y ≤ 2 ^ 53
    · rw [float64_natCast y h]
    · rw [qy.2 (by omega)]; ring
  have t3 : f 3 * float64 (wrapInt ((x : Int) * x)) = f 3 * ((x : ℚ) * x) := by
    by_cases h : x * x ≤ 2 ^ 53
    · rw [float64_wrap_mul x x h]
    · rw [qx.1 (by omega)]; ring
  have t4 : f 4 * float64 (wrapInt ((y : Int) * y)) = f 4 * ((y : ℚ) * y) := by
    by_cases h : y * y ≤ 2 ^ 53
    · rw [float64_wrap_mul y y h]
    · rw [qy.1 (by omega)]; ring
  have t5 : f 5 * float64 (wrapInt ((x : Int) * y)) = f 5 * ((x : ℚ) * y) := by
    by_cases h : x * y ≤ 2 ^ 53
    · rw [float64_wrap_mul x y h]
    · rw [mixed_bounded (f 0) (f 1) (f 2) (f 3) (f 4) (f 5) W H n hb hs x y hx hy (by omega)]
      ring
  unfold fitted surface
  rw [t1, t2, t3, t4, t5]
  push_cast
  ring

theorem residual_nonneg (A b z : Dense) : 0 ≤ residual A b z :=
  Finset.sum_nonneg (fun _ _ => sq_nonneg _)

theorem residual_eq_zero (A b z : Dense) (h : residual A b z = 0) (i : Nat)
    (hi : i < A.rows) : predict A z i = b.At i 0 := by
  have hz := (Finset.sum_eq_zero_iff_of_nonneg (fun _ _ => sq_nonneg _)).mp h i
    (Finset.mem_range.mpr hi)
  have h2 : predict A z i - b.At i 0 = 0 := by
    have := pow_eq_zero_iff (two_ne_zero) |>.mp hz
    exact this
  linarith

theorem channel_values (cf : Color → ℚ) (hcf : cf = cfRed ∨ cf = cfGreen ∨ cf = cfBlue) :
    ∃ n : Color → Nat, (∀ c, n c < 2 ^ 32) ∧ ∀ c, cf c = (n c : ℚ) := by
  have hlt : ∀ k : Nat, k % 2 ^ 32 < 2 ^ 32 := fun k => Nat.mod_lt _ (by norm_num)
  have hle : ∀ k : Nat, k % 2 ^ 32 ≤ 2 ^ 53 := fun k =>
    le_trans (le_of_lt (hlt k)) (by norm_num)
  rcases hcf with h | h | h
  · exact ⟨fun c => c.r % 2 ^ 32, fun c => hlt _, fun c => by
      rw [h]; exact float64_natCast _ (hle _)⟩
  · exact ⟨fun c => c.g % 2 ^ 32, fun c => hlt _, fun c => by
      rw [h]; exact float64_natCast _ (hle _)⟩
  · exact ⟨fun c => c.b % 2 ^ 32, fun c => hlt _, fun c => by
      rw [h]; exact float64_natCast _ (hle _)⟩

theorem list_length_six (l : List ℚ) (h : l.length = 6) :
    l = [l.getD 0 0, l.getD 1 0, l.getD 2 0, l.getD 3 0, l.getD 4 0, l.getD 5 0] := by
  match l, h with
  | [_, _, _, _, _, _], _ => rfl

theorem fitted_coef (f : Nat → ℚ) (x y : Int) :
    fitted (fun j => (⟨6, 1, [f 0, f 1, f 2, f 3, f 4, f 5]⟩ : Dense).At j 0) x y
      = fitted f x y := by
  obtain ⟨h0, h1, h2, h3, h4, h5⟩ := coef_At (f 0) (f 1) (f 2) (f 3) (f 4) (f 5)
  unfold fitted
  simp only [h0, h1, h2, h3, h4, h5]

/-- Exact recovery: on a grid at least 3x3 whose channel values are those of a surface, a
least-squares minimiser against the design matrix is the coefficient vector itself. -/
theorem solution_recovers (i : Image) (cf : Color → ℚ)
    (hcf : cf = cfRed ∨ cf = cfGreen ∨ cf = cfBlue) (f : Nat → ℚ)
    (hW : 3 ≤ i.maxX) (hH : 3 ≤ i.maxY)
    (hdata : ∀ x y, x < i.maxX → y < i.maxY →
      cf (i.At x y) = surface (f 0) (f 1) (f 2) (f 3) (f 4) (f 5) x y)
    (z : Dense) (hz : IsLeastSquares (designMatrix i.maxX i.maxY) (valueVector i cf) z) :
    z = (⟨6, 1, [f 0, f 1, f 2, f 3, f 4, f 5]⟩ : Dense) := by
  obtain ⟨n, hn, hcfn⟩ := channel_values cf hcf
  obtain ⟨zrows, zcols, zlen, zmin⟩ := hz
  have hAcols : (designMatrix i.maxX i.maxY).cols = 6 := rfl
  have hArows : (designMatrix i.maxX i.maxY).rows = i.maxX * i.maxY := rfl
  -- the coefficient vector reproduces the data
  have hfit : ∀ x y, x < i.maxX → y < i.maxY →
      fitted f x y = surface (f 0) (f 1) (f 2) (f 3) (f 4) (f 5) x y :=
    fitted_eq_surface_of_bounded f i.maxX i.maxY (fun x y => n (i.At x y))
      (fun x y _ _ => hn _) (fun x y hx hy => by rw [← hcfn]; exact hdata x y hx hy)
  have hstar : ∀ k, k < i.maxX * i.maxY →
      predict (designMatrix i.maxX i.maxY) (⟨6, 1, [f 0, f 1, f 2, f 3, f 4, f 5]⟩ : Dense) k
        = (valueVector i cf).At k 0 := by
    intro k hk
    obtain ⟨he, hx, hy⟩ := index_decompose i.maxX i.maxY k hk
    rw [← he, predict_coords _ _ _ _ hx hy, fitted_coef, hfit _ _ hx hy,
      getValues_At i cf _ _ hx hy, hdata _ _ hx hy]
  have hres0 : residual (designMatrix i.maxX i.maxY) (valueVector i cf)
      (⟨6, 1, [f 0, f 1, f 2, f 3, f 4, f 5]⟩ : Dense) = 0 := by
    unfold residual
    refine Finset.sum_eq_zero (fun k hk => ?_)
    rw [hArows] at hk
    rw [hstar k (Finset.mem_range.mp hk), sub_self]
    norm_num
  have hresz : residual (designMatrix i.maxX i.maxY) (valueVector i cf) z = 0 :=
    le_antisymm (hres0 ▸ zmin _) (residual_nonneg _ _ _)
  -- the difference lies in the kernel of the design matrix
  have hker := columnsIndependent_of_ge i.maxX i.maxY hW hH
    (fun j => z.At j 0 - (⟨6, 1, [f 0, f 1, f 2, f 3, f 4, f 5]⟩ : Dense).At j 0)
    (fun k hk => by
      have h1 := residual_eq_zero _ _ _ hresz k hk
      have h2 := hstar k (hArows ▸ hk)
      unfold predict at h1 h2
      simp only [mul_sub, Finset.sum_sub_distrib]
      rw [h1, h2, sub_self])
  obtain ⟨h0, h1, h2, h3, h4, h5⟩ := coef_At (f 0) (f 1) (f 2) (f 3) (f 4) (f 5)
  have g0 := hker 0 (by rw [hAcols]; omega)
  have g1 := hker 1 (by rw [hAcols]; omega)
  have g2 := hker 2 (by rw [hAcols]; omega)
  have g3 := hker 3 (by rw [hAcols]; omega)
  have g4 := hker 4 (by rw [hAcols]; omega)
  have g5 := hker 5 (by rw [hAcols]; omega)
  simp only [h0, h1, h2, h3, h4, h5] at g0 g1 g2 g3 g4 g5
  rw [hAcols] at zrows zlen
  obtain ⟨r, c, data⟩ := z
  simp only at zrows zcols zlen
  subst zrows zcols
  simp only [Dense.At, Nat.mul_one, Nat.add_zero] at g0 g1 g2 g3 g4 g5
  show (⟨6, 1, data⟩ : Dense) = ⟨6, 1, [f 0, f 1, f 2, f 3, f 4, f 5]⟩
  rw [list_length_six data zlen]
  congr 2
  · linarith
  · congr 1
    · linarith
    · congr 1
      · linarith
      · congr 1
        · linarith
        · congr 1
          · linarith
          · congr 1
            linarith

/-- The coefficient vector of the surface that generated the data attains residual zero, so
it is a least-squares minimiser. -/
theorem surface_isLeastSquares (i : Image) (cf : Color → ℚ)
    (hcf : cf = cfRed ∨ cf = cfGreen ∨ cf = cfBlue) (f : Nat → ℚ)
    (hdata : ∀ x y, x < i.maxX → y < i.maxY →
      cf (i.At x y) = surface (f 0) (f 1) (f 2) (f 3) (f 4) (f 5) x y) :
    IsLeastSquares (designMatrix i.maxX i.maxY) (valueVector i cf)
      (⟨6, 1, [f 0, f 1, f 2, f 3, f 4, f 5]⟩ : Dense) := by
  obtain ⟨n, hn, hcfn⟩ := channel_values cf hcf
  have hfit : ∀ x y, x < i.maxX → y < i.maxY →
      fitted f x y = surface (f 0) (f 1) (f 2) (f 3) (f 4) (f 5) x y :=
    fitted_eq_surface_of_bounded f i.maxX i.maxY (fun x y => n (i.At x y))
      (fun x y _ _ => hn _) (fun x y hx hy => by rw [← hcfn]; exact hdata x y hx hy)
  have hres0 : residual (designMatrix i.maxX i.maxY) (valueVector i cf)
      (⟨6, 1, [f 0, f 1, f 2, f 3, f 4, f 5]⟩ : Dense) = 0 := by
    unfold residual
    refine Finset.sum_eq_zero (fun k hk => ?_)
    obtain ⟨he, hx, hy⟩ := index_decompose i.maxX i.maxY k (Finset.mem_range.mp hk)
    rw [← he, predict_coords _ _ _ _ hx hy, fitted_coef, hfit _ _ hx hy,
      getValues_At i cf _ _ hx hy, hdata _ _ hx hy, sub_self]
    norm_num
  exact ⟨rfl, rfl, rfl, fun z => hres0 ▸ residual_nonneg _ _ z⟩

theorem rampImage_data (x y : Nat) (hx : x < 4) (hy : y < 4) :
    cfRed (rampImage.At x y) = surface 50 2 3 0 0 0 x y ∧
    cfGreen (rampImage.At x y) = surface 50 2 3 0 0 0 x y ∧
    cfBlue (rampImage.At x y) = surface 50 2 3 0 0 0 x y := by
  have hmod : (50 + 2 * x + 3 * y) % 2 ^ 32 = 50 + 2 * x + 3 * y :=
    Nat.mod_eq_of_lt (by norm_num; omega)
  have hle : 50 + 2 * x + 3 * y ≤ 2 ^ 53 := by norm_num; omega
  have hv : float64 (((50 + 2 * x + 3 * y) % 2 ^ 32 : Nat) : Int)
      = surface 50 2 3 0 0 0 x y := by
    rw [hmod, float64_natCast _ hle]
    unfold surface
    push_cast
    ring
  exact ⟨hv, hv, hv⟩

/-! ## Auxiliary lemmas: `NewDense` and the pipeline -/

theorem coordsData_length (maxX maxY : Nat) :
    (coordsData maxX maxY).length = maxX * maxY * 6 := by
  rw [coordsData_eq, length_flatMap_range _ (maxX * 6) maxY
    (fun b => length_flatMap_range (fun a : Nat => basisRow a b) 6 maxX (fun _ => rfl))]
  ring

theorem coords_ok (maxX maxY : Nat) (hX : 0 < maxX) (hY : 0 < maxY) :
    coords maxX maxY = .ok (designMatrix maxX maxY) := by
  have hpos : ¬ (maxX * maxY = 0 ∨ 6 = 0) := by
    have : 0 < maxX * maxY := Nat.mul_pos hX hY
    omega
  unfold coords NewDense
  rw [if_neg hpos]
  simp only [coordsData_length, if_true]
  rfl

theorem coords_error (maxX maxY : Nat) (h : maxX = 0 ∨ maxY = 0) :
    coords maxX maxY = .error "mat: zero length in matrix dimension" := by
  have hz : maxX * maxY = 0 ∨ 6 = 0 := Or.inl (Nat.mul_eq_zero.mpr h)
  unfold coords NewDense
  rw [if_pos hz]

theorem getValues_ok (i : Image) (cf : Color → ℚ) (hX : 0 < i.maxX) (hY : 0 < i.maxY) :
    getValues i cf = .ok (valueVector i cf) := by
  have hpos : ¬ (i.maxX * i.maxY = 0 ∨ 1 = 0) := by
    have : 0 < i.maxX * i.maxY := Nat.mul_pos hX hY
    omega
  have hlen : (valuesData i cf).length = i.maxX * i.maxY * 1 := by
    rw [Nat.mul_one]; exact getValues_length i cf
  unfold getValues NewDense
  rw [if_neg hpos]
  simp only [hlen, if_true]
  rfl

theorem getSolution_ok (solve : Solve) (i : Image) (A : Dense) (cf : Color → ℚ)
    (hX : 0 < i.maxX) (hY : 0 < i.maxY) :
    getSolution solve i A cf = .ok (solve zeroSolution A (valueVector i cf)).1 := by
  unfold getSolution
  rw [getValues_ok i cf hX hY]
  rfl

theorem process_ok (solve : Solve) (i : Image) (hX : 0 < i.maxX) (hY : 0 < i.maxY) :
    process solve i = .ok (outImg i.maxX i.maxY
      (solve zeroSolution (designMatrix i.maxX i.maxY) (valueVector i cfRed)).1
      (solve zeroSolution (designMatrix i.maxX i.maxY) (valueVector i cfGreen)).1
      (solve zeroSolution (designMatrix i.maxX i.maxY) (valueVector i cfBlue)).1) := by
  unfold process
  rw [coords_ok _ _ hX hY]
  simp only [getSolution_ok solve i _ _ hX hY]

theorem process_error (solve : Solve) (i : Image) (h : i.maxX = 0 ∨ i.maxY = 0) :
    process solve i = .error "mat: zero length in matrix dimension" := by
  unfold process
  rw [coords_error _ _ h]

theorem main_flags (e : Env) (h : e.input.length = 0 ∨ e.output.length = 0) :
    (main e).status = 1 ∧ (main e).outputFile = e.outputFile := by
  unfold main
  by_cases hi : e.input.length = 0
  · simp [hi]
  · rcases h with h | h
    · exact absurd h hi
    · simp [hi, h]

/-! ## Auxiliary lemmas: `float64` arithmetic -/

theorem roundHalfEven_intCast (n : Int) : roundHalfEven (n : ℚ) = n := by
  unfold roundHalfEven
  rw [Int.floor_intCast, sub_self, if_pos (by norm_num)]

theorem log2_lt (r : ℚ) (hr : 0 < r) (x : Int) (h : r < (2 : ℚ) ^ x) : Int.log 2 r < x := by
  have := (Int.lt_zpow_iff_log_lt (R := ℚ) (b := 2) (by norm_num) (x := x) hr).mp
    (by simpa using h)
  exact this

theorem log2_eq (r : ℚ) (e : Int) (hlo : (2 : ℚ) ^ e ≤ r) (hhi : r < (2 : ℚ) ^ (e + 1)) :
    Int.log 2 r = e := by
  have hr : 0 < r := lt_of_lt_of_le (zpow_pos (by norm_num) e) hlo
  have h1 : e ≤ Int.log 2 r :=
    (Int.zpow_le_iff_le_log (R := ℚ) (b := 2) (by norm_num) (x := e) hr).mp (by simpa using hlo)
  have h2 := log2_lt r hr (e + 1) hhi
  omega

/-- A number `h * 2^j` with `|h| < 2^53` and `-1074 <= j <= 970` is a `float64`. -/
theorem roundFloat64_exact (h j : Int) (hh : |h| < 2 ^ 53) (hj1 : -1074 ≤ j) (hj2 : j ≤ 970) :
    roundFloat64 ((h : ℚ) * (2 : ℚ) ^ j) = some ((h : ℚ) * (2 : ℚ) ^ j) := by
  have h2pos : ∀ z : Int, (0 : ℚ) < (2 : ℚ) ^ z := fun z => zpow_pos (by norm_num) z
  by_cases h0 : h = 0
  · subst h0
    simp [roundFloat64]
  have hq0 : (h : ℚ) * (2 : ℚ) ^ j ≠ 0 :=
    mul_ne_zero (by exact_mod_cast h0) (ne_of_gt (h2pos j))
  have habs : |(h : ℚ) * (2 : ℚ) ^ j| = ((|h| : Int) : ℚ) * (2 : ℚ) ^ j := by
    rw [abs_mul, abs_of_pos (h2pos j), Int.cast_abs]
  have hapos : 0 < |(h : ℚ) * (2 : ℚ) ^ j| := abs_pos.mpr hq0
  have hlt : |(h : ℚ) * (2 : ℚ) ^ j| < (2 : ℚ) ^ (53 + j) := by
    rw [habs, zpow_add₀ (by norm_num : (2 : ℚ) ≠ 0)]
    have h1 : ((|h| : Int) : ℚ) < (2 : ℚ) ^ (53 : Int) := by
      have h2 : ((|h| : Int) : ℚ) < ((2 ^ 53 : Int) : ℚ) := by exact_mod_cast hh
      calc ((|h| : Int) : ℚ) < ((2 ^ 53 : Int) : ℚ) := h2
        _ = (2 : ℚ) ^ (53 : Int) := by norm_num
    exact mul_lt_mul_of_pos_right h1 (h2pos j)
  have hlog := log2_lt _ hapos _ hlt
  have hfin : ¬ ((2 : ℚ) ^ (1024 : Int) ≤ |(h : ℚ) * (2 : ℚ) ^ j|) := by
    have : (2 : ℚ) ^ (53 + j) ≤ (2 : ℚ) ^ (1024 : Int) :=
      zpow_le_zpow_right₀ (by norm_num) (by omega)
    exact not_le.mpr (lt_of_lt_of_le hlt this)
  unfold roundFloat64
  rw [if_neg hq0]
  obtain ⟨n, hn⟩ : ∃ n : Nat, j = (max (Int.log 2 |(h : ℚ) * (2 : ℚ) ^ j|) (-1022) - 52) + n :=
    ⟨(j - (max (Int.log 2 |(h : ℚ) * (2 : ℚ) ^ j|) (-1022) - 52)).toNat, by
      rw [Int.toNat_of_nonneg] <;> omega⟩
  generalize max (Int.log 2 |(h : ℚ) * (2 : ℚ) ^ j|) (-1022) - 52 = k at hn ⊢
  have hdiv : |(h : ℚ) * (2 : ℚ) ^ j| / (2 : ℚ) ^ k = ((|h| * 2 ^ n : Int) : ℚ) := by
    rw [habs]
    conv_lhs => rw [hn, zpow_add₀ (by norm_num : (2 : ℚ) ≠ 0), zpow_natCast]
    field_simp
    ring
  have hv : ((roundHalfEven (|(h : ℚ) * (2 : ℚ) ^ j| / (2 : ℚ) ^ k) : Int) : ℚ) * (2 : ℚ) ^ k
      = |(h : ℚ) * (2 : ℚ) ^ j| := by
    rw [hdiv, roundHalfEven_intCast, habs]
    conv_rhs => rw [hn, zpow_add₀ (by norm_num : (2 : ℚ) ≠ 0), zpow_natCast]
    push_cast
    ring
  rw [hv, if_neg hfin]
  congr 1
  by_cases hneg : (h : ℚ) * (2 : ℚ) ^ j < 0
  · rw [if_pos hneg, abs_of_neg hneg]; ring
  · rw [if_neg hneg, abs_of_nonneg (not_lt.mp hneg)]; ring

/-- The sum `0.5 + (0.5 - 2^-54)` lies halfway between two `float64`s and rounds to 1. -/
theorem roundFloat64_tie : roundFloat64 (1 - 1 / 2 ^ 54) = some 1 := by
  have hlog : Int.log 2 |(1 - 1 / 2 ^ 54 : ℚ)| = -1 := by
    rw [abs_of_pos (by norm_num)]
    exact log2_eq _ (-1) (by norm_num) (by norm_num)
  have hk : max (-1 : Int) (-1022) - 52 = -53 := by decide
  have hm : |(1 - 1 / 2 ^ 54 : ℚ)| / (2 : ℚ) ^ (-53 : Int) = 9007199254740992 - 1 / 2 := by
    rw [abs_of_pos (by norm_num)]
    norm_num
  have hfl : Int.floor (9007199254740992 - 1 / 2 : ℚ) = 9007199254740991 := by
    rw [Int.floor_eq_iff]
    norm_num
  have hr : roundHalfEven (9007199254740992 - 1 / 2 : ℚ) = 9007199254740992 := by
    unfold roundHalfEven
    rw [hfl]
    norm_num
  unfold roundFloat64
  rw [if_neg (by norm_num), hlog, hk, hm, hr]
  norm_num

/-- An integer or half-integer `h / 2` with `|h| < 2^53` is a `float64`. -/
theorem isFloat64_half (h : Int) (hh : |h| < 2 ^ 53) : IsFloat64 ((h : ℚ) / 2) := by
  have e := roundFloat64_exact h (-1) hh (by norm_num) (by norm_num)
  have hq : (h : ℚ) * (2 : ℚ) ^ (-1 : Int) = (h : ℚ) / 2 := by
    rw [zpow_neg_one]; ring
  rw [hq] at e
  exact e

theorem isFloat64_intCast (h : Int) (hh : |h| < 2 ^ 53) : IsFloat64 (h : ℚ) := by
  have e := roundFloat64_exact h 0 hh (by norm_num) (by norm_num)
  simpa [IsFloat64] using e

theorem mul64_zero_left (t : ℚ) : mul64 0 t = some 0 := by
  unfold mul64
  rw [zero_mul]
  simp [roundFloat64]

theorem add64_zero_zero : add64 (some 0) (some 0) = some 0 := by
  unfold add64
  simp [roundFloat64]

theorem uint16_of_range (v : ℚ) (h0 : 0 ≤ v) (h1 : v < 65536) :
    (uint16 (some v) : Int) = Int.floor v := by
  have hr : -2 ^ 31 - 1 < v ∧ v < 2 ^ 31 :=
    ⟨lt_of_lt_of_le (by norm_num) h0, lt_trans h1 (by norm_num)⟩
  unfold uint16
  simp only [hr, and_self, if_true, if_pos h0]
  have hf0 : 0 ≤ Int.floor v := Int.floor_nonneg.mpr h0
  have hf1 : Int.floor v < 65536 := Int.floor_lt.mpr (by exact_mod_cast h1)
  rw [Int.emod_eq_of_lt hf0 hf1, Int.toNat_of_nonneg hf0]

theorem uint16_natCast (n : Nat) (h : n < 65536) : uint16 (some (n : ℚ)) = n := by
  have h1 := uint16_of_range (n : ℚ) (Nat.cast_nonneg n) (by exact_mod_cast h)
  rw [Int.floor_natCast] at h1
  exact_mod_cast h1

theorem pixel_zero (x y : Int) : pixel zeroSolution x y = 0 := by
  obtain ⟨k0, k1, k2, k3, k4, k5⟩ := coef_At 0 0 0 0 0 0
  have hz : zeroSolution = (⟨6, 1, [0, 0, 0, 0, 0, 0]⟩ : Dense) := rfl
  unfold pixel
  rw [hz, k0, k1, k2, k3, k4, k5]
  simp only [mul64_zero_left, add64_zero_zero]
  have hm : mathMax (some 0) = some ((0 : Nat) : ℚ) := by
    unfold mathMax
    norm_num
  rw [hm]
  exact uint16_natCast 0 (by norm_num)

theorem eval_steps (c0 c1 c2 c3 c4 c5 X Y XX YY XY P1 P2 P3 P4 P5 : ℚ)
    (h1 : mul64 c1 X = some P1) (h2 : IsFloat64 (c0 + P1))
    (h3 : mul64 c2 Y = some P2) (h4 : IsFloat64 (c0 + P1 + P2))
    (h5 : mul64 c3 XX = some P3) (h6 : IsFloat64 (c0 + P1 + P2 + P3))
    (h7 : mul64 c4 YY = some P4) (h8 : IsFloat64 (c0 + P1 + P2 + P3 + P4))
    (h9 : mul64 c5 XY = some P5) (h10 : IsFloat64 (c0 + P1 + P2 + P3 + P4 + P5)) :
    add64 (add64 (add64 (add64 (add64 (some c0) (mul64 c1 X)) (mul64 c2 Y)) (mul64 c3 XX))
      (mul64 c4 YY)) (mul64 c5 XY)
      = some (c0 + P1 + P2 + P3 + P4 + P5) := by
  unfold IsFloat64 at h2 h4 h6 h8 h10
  rw [h1, h3, h5, h7, h9]
  simp only [add64]
  rw [h2]
  simp only [add64]
  rw [h4]
  simp only [add64]
  rw [h6]
  simp only [add64]
  rw [h8]
  simp only [add64]
  rw [h10]

/-- When no operation rounds and the integer products convert exactly, `pixel` converts
the clamped surface value. -/
theorem pixel_exact (c0 c1 c2 c3 c4 c5 : ℚ) (x y : Nat)
    (hxx : x * x ≤ 2 ^ 53) (hyy : y * y ≤ 2 ^ 53) (hxy : x * y ≤ 2 ^ 53)
    (h : EvaluatesExactly c0 c1 c2 c3 c4 c5 x y) :
    pixel (⟨6, 1, [c0, c1, c2, c3, c4, c5]⟩ : Dense) x y
      = uint16 (some (max (surface c0 c1 c2 c3 c4 c5 x y) 0)) := by
  obtain ⟨k0, k1, k2, k3, k4, k5⟩ := coef_At c0 c1 c2 c3 c4 c5
  have hx : x ≤ 2 ^ 53 := le_trans (Nat.le_mul_self x) hxx
  have hy : y ≤ 2 ^ 53 := le_trans (Nat.le_mul_self y) hyy
  obtain ⟨h1, h2, h3, h4, h5, h6, h7, h8, h9, h10⟩ := h
  push_cast at h1 h2 h3 h4 h5 h6 h7 h8 h9 h10
  unfold pixel
  rw [k0, k1, k2, k3, k4, k5, float64_natCast x hx, float64_natCast y hy,
    float64_wrap_mul x x hxx, float64_wrap_mul y y hyy, float64_wrap_mul x y hxy,
    eval_steps c0 c1 c2 c3 c4 c5 x y (x * x) (y * y) (x * y) _ _ _ _ _
      h1 h2 h3 h4 h5 h6 h7 h8 h9 h10]
  unfold mathMax surface
  push_cast
  congr 3
  ring

/-- A quadratic that takes natural values up to `V` at every point of `[0, W)`, `W >= 3`,
has bounded terms on `[0, W)`. -/
theorem quadratic_terms_bounded (a b c V : ℚ) (W : Nat) (hW : 3 ≤ W) (g : Nat → Nat)
    (hb : ∀ t, t < W → (g t : ℚ) ≤ V)
    (hs : ∀ t, t < W → (g t : ℚ) = a + b * t + c * (t : ℚ) ^ 2) (t : Nat) (ht : t < W) :
    |c * (t : ℚ) ^ 2| ≤ 9 * V ∧ |b * t| ≤ 10 * V := by
  have hnn : ∀ s : Nat, (0 : ℚ) ≤ (g s : ℚ) := fun s => Nat.cast_nonneg _
  have e0 := hs 0 (by omega)
  have b0 := hb 0 (by omega)
  have hV : 0 ≤ V := le_trans (hnn 0) b0
  have hc : |c * (t : ℚ) ^ 2| ≤ 9 * V := by
    rcases Nat.lt_or_ge t 2 with h2 | h2
    · have e1 := hs 1 (by omega)
      have e2 := hs 2 (by omega)
      have b1 := hb 1 (by omega)
      have b2 := hb 2 (by omega)
      have n1 := hnn 1
      have n2 := hnn 2
      push_cast at e0 e1 e2
      have hcV : |c| ≤ V := by
        rw [abs_le]
        constructor <;> linarith [hnn 0]
      interval_cases t
      · simp only [Nat.cast_zero]
        norm_num
        linarith
      · simp only [Nat.cast_one]
        norm_num
        linarith
    · have hm1 : 1 ≤ t / 2 := by omega
      have hm2 : 2 * (t / 2) ≤ t := by omega
      have hm3 : t ≤ 3 * (t / 2) := by omega
      have em := hs (t / 2) (by omega)
      have e2m := hs (2 * (t / 2)) (by omega)
      have bm := hb (t / 2) (by omega)
      have b2m := hb (2 * (t / 2)) (by omega)
      have nm := hnn (t / 2)
      have n2m := hnn (2 * (t / 2))
      generalize t / 2 = m at hm1 hm2 hm3 em e2m bm b2m nm n2m
      push_cast at e0 em e2m
      have key : 2 * (c * (m : ℚ) ^ 2) = (g (2 * m) : ℚ) - 2 * g m + g 0 := by
        rw [e0, em, e2m]; ring
      have hcm : |c| * (m : ℚ) ^ 2 ≤ V := by
        have h1 : |c * (m : ℚ) ^ 2| ≤ V := by
          rw [abs_le]
          constructor <;> linarith [hnn 0]
        rwa [abs_mul, abs_of_nonneg (sq_nonneg (m : ℚ))] at h1
      have ht3 : (t : ℚ) ≤ 3 * m := by exact_mod_cast hm3
      have htsq : (t : ℚ) ^ 2 ≤ 9 * (m : ℚ) ^ 2 := by
        have ht0 : (0 : ℚ) ≤ t := Nat.cast_nonneg _
        nlinarith
      rw [abs_mul, abs_of_nonneg (sq_nonneg (t : ℚ))]
      calc |c| * (t : ℚ) ^ 2 ≤ |c| * (9 * (m : ℚ) ^ 2) :=
            mul_le_mul_of_nonneg_left htsq (abs_nonneg c)
        _ = 9 * (|c| * (m : ℚ) ^ 2) := by ring
        _ ≤ 9 * V := by linarith
  refine ⟨hc, ?_⟩
  have et := hs t ht
  have bt := hb t ht
  have nt := hnn t
  push_cast at e0
  have hbt : b * t = (g t : ℚ) - g 0 - c * (t : ℚ) ^ 2 := by rw [et, e0]; ring
  rw [hbt, abs_le]
  have := abs_le.mp hc
  constructor <;> linarith [hnn 0, this.1, this.2]

theorem halfInteger_add (p q : ℚ) (hp : HalfInteger p) (hq : HalfInteger q) :
    HalfInteger (p + q) := by
  obtain ⟨a, ha⟩ := hp
  obtain ⟨b, hb⟩ := hq
  exact ⟨a + b, by rw [ha, hb]; push_cast; ring⟩

theorem halfInteger_mul_nat (p : ℚ) (t : Nat) (hp : HalfInteger p) :
    HalfInteger (p * (t : ℚ)) := by
  obtain ⟨a, ha⟩ := hp
  exact ⟨a * t, by rw [ha]; push_cast; ring⟩

theorem isFloat64_of_halfInteger (q : ℚ) (hq : HalfInteger q) (hb : |q| ≤ 2 ^ 51) :
    IsFloat64 q := by
  obtain ⟨h, rfl⟩ := hq
  refine isFloat64_half h ?_
  have h1 : |(h : ℚ)| ≤ 2 ^ 52 := by
    rw [abs_div, abs_of_pos (by norm_num : (0 : ℚ) < 2)] at hb
    have := (div_le_iff₀ (by norm_num : (0 : ℚ) < 2)).mp hb
    linarith
  have h2 : ((|h| : Int) : ℚ) ≤ ((2 ^ 52 : Int) : ℚ) := by
    rw [Int.cast_abs]; push_cast; exact h1
  have h3 : |h| ≤ 2 ^ 52 := by exact_mod_cast h2
  exact lt_of_le_of_lt h3 (by norm_num)

/-- A surface with natural values on a grid at least 3x3 has half-integer coefficients. -/
theorem coefficients_halfInteger (f : Nat → ℚ) (W H : Nat) (hW : 3 ≤ W) (hH : 3 ≤ H)
    (n : Nat → Nat → Nat)
    (hs : ∀ x y, x < W → y < H →
      (n x y : ℚ) = surface (f 0) (f 1) (f 2) (f 3) (f 4) (f 5) x y) :
    HalfInteger (f 0) ∧ HalfInteger (f 1) ∧ HalfInteger (f 2) ∧ HalfInteger (f 3) ∧
    HalfInteger (f 4) ∧ HalfInteger (f 5) := by
  have e00 := hs 0 0 (by omega) (by omega)
  have e10 := hs 1 0 (by omega) (by omega)
  have e20 := hs 2 0 (by omega) (by omega)
  have e01 := hs 0 1 (by omega) (by omega)
  have e02 := hs 0 2 (by omega) (by omega)
  have e11 := hs 1 1 (by omega) (by omega)
  simp only [surface] at e00 e10 e20 e01 e02 e11
  push_cast at e00 e10 e20 e01 e02 e11
  refine ⟨⟨2 * n 0 0, ?_⟩, ⟨4 * n 1 0 - 3 * n 0 0 - n 2 0, ?_⟩,
    ⟨4 * n 0 1 - 3 * n 0 0 - n 0 2, ?_⟩, ⟨n 2 0 - 2 * n 1 0 + n 0 0, ?_⟩,
    ⟨n 0 2 - 2 * n 0 1 + n 0 0, ?_⟩, ⟨2 * (n 1 1 - n 1 0 - n 0 1 + n 0 0), ?_⟩⟩ <;>
  · push_cast
    linarith

theorem abs_add_le_of (p q P Q : ℚ) (hp : |p| ≤ P) (hq : |q| ≤ Q) : |p + q| ≤ P + Q :=
  le_trans (abs_add p q) (add_le_add hp hq)

/-- On a grid at least 3x3 whose values are those of a surface and lie in `[0, 65535]`,
the `float64` evaluation of the coefficient vector gives the value: no operation rounds. -/
theorem fittedFloat64_of_surface (f : Nat → ℚ) (W H : Nat) (hW : 3 ≤ W) (hH : 3 ≤ H)
    (n : Nat → Nat → Nat)
    (hb : ∀ x y, x < W → y < H → n x y ≤ 65535)
    (hs : ∀ x y, x < W → y < H →
      (n x y : ℚ) = surface (f 0) (f 1) (f 2) (f 3) (f 4) (f 5) x y)
    (x y : Nat) (hx : x < W) (hy : y < H) :
    fittedFloat64 (⟨6, 1, [f 0, f 1, f 2, f 3, f 4, f 5]⟩ : Dense) x y = some (n x y : ℚ) := by
  have hb32 : ∀ x y, x < W → y < H → n x y < 2 ^ 32 := fun x y hx hy =>
    lt_of_le_of_lt (hb x y hx hy) (by norm_num)
  have hbq : ∀ x y, x < W → y < H → (n x y : ℚ) ≤ 65535 := fun x y hx hy => by
    exact_mod_cast hb x y hx hy
  have hnn : ∀ x y, (0 : ℚ) ≤ (n x y : ℚ) := fun x y => Nat.cast_nonneg _
  have hW0 : 0 < W := by omega
  have hH0 : 0 < H := by omega
  obtain ⟨i0, i1, i2, i3, i4, i5⟩ := coefficients_halfInteger f W H hW hH n hs
  -- the two one-dimensional sections
  have sx : ∀ t, t < W → (n t 0 : ℚ) = f 0 + f 1 * t + f 3 * (t : ℚ) ^ 2 := fun t ht => by
    have h := hs t 0 ht hH0
    simp only [surface] at h
    push_cast at h
    rw [h]; ring
  have sy : ∀ t, t < H → (n 0 t : ℚ) = f 0 + f 2 * t + f 4 * (t : ℚ) ^ 2 := fun t ht => by
    have h := hs 0 t hW0 ht
    simp only [surface] at h
    push_cast at h
    rw [h]; ring
  obtain ⟨b3, b1⟩ := quadratic_terms_bounded (f 0) (f 1) (f 3) 65535 W hW (fun t => n t 0)
    (fun t ht => hbq t 0 ht hH0) sx x hx
  obtain ⟨b4, b2⟩ := quadratic_terms_bounded (f 0) (f 2) (f 4) 65535 H hH (fun t => n 0 t)
    (fun t ht => hbq 0 t hW0 ht) sy y hy
  have qx := quadratic_bounded (f 0) (f 1) (f 3) W (fun t => n t 0)
    (fun t ht => hb32 t 0 ht hH0) sx x hx
  have qy := quadratic_bounded (f 0) (f 2) (f 4) H (fun t => n 0 t)
    (fun t ht => hb32 0 t hW0 ht) sy y hy
  have e00 := hs 0 0 hW0 hH0
  have ex0 := hs x 0 hx hH0
  have e0y := hs 0 y hW0 hy
  have exy := hs x y hx hy
  simp only [surface] at e00 ex0 e0y exy
  push_cast at e00 ex0 e0y exy
  have b0 : |f 0| ≤ 65535 := by
    have h0 : f 0 = (n 0 0 : ℚ) := by rw [e00]; ring
    rw [h0, abs_of_nonneg (hnn 0 0)]
    exact hbq 0 0 hW0 hH0
  have b5 : |f 5 * ((x : ℚ) * y)| ≤ 2 * 65535 := by
    have h5 : f 5 * ((x : ℚ) * y) = (n x y : ℚ) - n x 0 - n 0 y + n 0 0 := by
      rw [e00, ex0, e0y, exy]; ring
    rw [h5, abs_le]
    constructor <;>
      linarith [hnn x y, hnn x 0, hnn 0 y, hnn 0 0, hbq x y hx hy, hbq x 0 hx hH0,
        hbq 0 y hW0 hy, hbq 0 0 hW0 hH0]
  have b3' : |f 3 * ((x : ℚ) * x)| ≤ 9 * 65535 := by rwa [← sq]
  have b4' : |f 4 * ((y : ℚ) * y)| ≤ 9 * 65535 := by rwa [← sq]
  -- half-integrality of the terms
  have t1 : HalfInteger (f 1 * (x : ℚ)) := halfInteger_mul_nat _ x i1
  have t2 : HalfInteger (f 2 * (y : ℚ)) := halfInteger_mul_nat _ y i2
  have t3 : HalfInteger (f 3 * ((x : ℚ) * x)) := by
    have := halfInteger_mul_nat _ (x * x) i3
    push_cast at this
    exact this
  have t4 : HalfInteger (f 4 * ((y : ℚ) * y)) := by
    have := halfInteger_mul_nat _ (y * y) i4
    push_cast at this
    exact this
  have t5 : HalfInteger (f 5 * ((x : ℚ) * y)) := by
    have := halfInteger_mul_nat _ (x * y) i5
    push_cast at this
    exact this
  have big : ∀ q : ℚ, HalfInteger q → |q| ≤ 41 * 65535 → IsFloat64 q := fun q hq hq2 =>
    isFloat64_of_halfInteger q hq (le_trans hq2 (by norm_num))
  -- the five products as the code computes them
  have p1 : mul64 (f 1) (float64 x) = some (f 1 * (x : ℚ)) := by
    by_cases h : x ≤ 2 ^ 53
    · rw [float64_natCast x h]
      exact big _ t1 (le_trans b1 (by norm_num))
    · rw [qx.2 (by omega), mul64_zero_left, zero_mul]
  have p2 : mul64 (f 2) (float64 y) = some (f 2 * (y : ℚ)) := by
    by_cases h : y ≤ 2 ^ 53
    · rw [float64_natCast y h]
      exact big _ t2 (le_trans b2 (by norm_num))
    · rw [qy.2 (by omega), mul64_zero_left, zero_mul]
  have p3 : mul64 (f 3) (float64 (wrapInt ((x : Int) * x))) = some (f 3 * ((x : ℚ) * x)) := by
    by_cases h : x * x ≤ 2 ^ 53
    · rw [float64_wrap_mul x x h]
      exact big _ t3 (le_trans b3' (by norm_num))
    · rw [qx.1 (by omega), mul64_zero_left, zero_mul]
  have p4 : mul64 (f 4) (float64 (wrapInt ((y : Int) * y))) = some (f 4 * ((y : ℚ) * y)) := by
    by_cases h : y * y ≤ 2 ^ 53
    · rw [float64_wrap_mul y y h]
      exact big _ t4 (le_trans b4' (by norm_num))
    · rw [qy.1 (by omega), mul64_zero_left, zero_mul]
  have p5 : mul64 (f 5) (float64 (wrapInt ((x : Int) * y))) = some (f 5 * ((x : ℚ) * y)) := by
    by_cases h : x * y ≤ 2 ^ 53
    · rw [float64_wrap_mul x y h]
      exact big _ t5 (le_trans b5 (by norm_num))
    · rw [mixed_bounded (f 0) (f 1) (f 2) (f 3) (f 4) (f 5) W H n hb32 hs x y hx hy (by omega),
        mul64_zero_left, zero_mul]
  -- the five partial sums
  have a1 := abs_add_le_of _ _ _ _ b0 b1
  have a2 := abs_add_le_of _ _ _ _ a1 b2
  have a3 := abs_add_le_of _ _ _ _ a2 b3'
  have a4 := abs_add_le_of _ _ _ _ a3 b4'
  have a5 := abs_add_le_of _ _ _ _ a4 b5
  have s1 := big _ (halfInteger_add _ _ i0 t1) (le_trans a1 (by norm_num))
  have s2 := big _ (halfInteger_add _ _ (halfInteger_add _ _ i0 t1) t2)
    (le_trans a2 (by norm_num))
  have s3 := big _ (halfInteger_add _ _ (halfInteger_add _ _ (halfInteger_add _ _ i0 t1) t2) t3)
    (le_trans a3 (by norm_num))
  have s4 := big _ (halfInteger_add _ _ (halfInteger_add _ _ (halfInteger_add _ _
    (halfInteger_add _ _ i0 t1) t2) t3) t4) (le_trans a4 (by norm_num))
  have s5 := big _ (halfInteger_add _ _ (halfInteger_add _ _ (halfInteger_add _ _
    (halfInteger_add _ _ (halfInteger_add _ _ i0 t1) t2) t3) t4) t5)
    (le_trans a5 (by norm_num))
  obtain ⟨k0, k1, k2, k3, k4, k5⟩ := coef_At (f 0) (f 1) (f 2) (f 3) (f 4) (f 5)
  have hval : f 0 + f 1 * (x : ℚ) + f 2 * (y : ℚ) + f 3 * ((x : ℚ) * x) + f 4 * ((y : ℚ) * y)
      + f 5 * ((x : ℚ) * y) = (n x y : ℚ) := by
    rw [exy]; ring
  unfold fittedFloat64
  rw [k0, k1, k2, k3, k4, k5,
    eval_steps (f 0) (f 1) (f 2) (f 3) (f 4) (f 5) _ _ _ _ _ _ _ _ _ _
      p1 s1 p2 s2 p3 s3 p4 s4 p5 s5, hval]

theorem pixel_eq_fittedFloat64 (d : Dense) (x y : Int) :
    pixel d x y = uint16 (mathMax (fittedFloat64 d x y)) := rfl

/-- The conversion truncates: a computed value in `[v, v+1)` gives `v`, one in `[v-1, v)`
gives `v - 1`. -/
theorem pixel_truncates (d : Dense) (x y : Int) (F : ℚ) (v : Nat)
    (hF : fittedFloat64 d x y = some F) (hv : v ≤ 65535) :
    ((v : ℚ) ≤ F → F < v + 1 → pixel d x y = v) ∧
    ((v : ℚ) - 1 ≤ F → F < v → pixel d x y = v - 1) := by
  have hvq : (v : ℚ) ≤ 65535 := by exact_mod_cast hv
  have hp : pixel d x y = uint16 (some (max F 0)) := by
    rw [pixel_eq_fittedFloat64, hF]
    rfl
  constructor
  · intro h1 h2
    have h0 : (0 : ℚ) ≤ F := le_trans (Nat.cast_nonneg v) h1
    rw [hp, max_eq_left h0]
    have e := uint16_of_range F h0 (by linarith)
    have hfl : Int.floor F = (v : Int) := by
      rw [Int.floor_eq_iff]
      exact ⟨by exact_mod_cast h1, by exact_mod_cast h2⟩
    rw [hfl] at e
    exact_mod_cast e
  · intro h1 h2
    rcases Nat.eq_zero_or_pos v with hz | hpos
    · subst hz
      have hneg : F ≤ 0 := le_of_lt (by simpa using h2)
      rw [hp, max_eq_right hneg]
      exact uint16_natCast 0 (by norm_num)
    · have hv1 : (1 : ℚ) ≤ (v : ℚ) := by exact_mod_cast hpos
      have h0 : (0 : ℚ) ≤ F := le_trans (by linarith) h1
      rw [hp, max_eq_left h0]
      have e := uint16_of_range F h0 (by linarith)
      have hfl : Int.floor F = ((v - 1 : Nat) : Int) := by
        rw [Int.floor_eq_iff]
        have hc : (((v - 1 : Nat) : Int) : ℚ) = (v : ℚ) - 1 := by
          rw [Int.cast_natCast, Nat.cast_sub hpos]
          norm_num
        rw [hc]
        exact ⟨h1, by linarith⟩
      rw [hfl] at e
      exact_mod_cast e


theorem isFloat64_of_eq (q : ℚ) (h : Int) (hq : q = (h : ℚ) / 2) (hh : |h| < 2 ^ 53) :
    IsFloat64 q := by
  rw [hq]
  exact isFloat64_half h hh

theorem float64_one : float64 1 = 1 := by
  have h := float64_natCast 1 (by norm_num)
  simpa using h

theorem pixel_const5 (u v : Int) : pixel ⟨6, 1, [5, 0, 0, 0, 0, 0]⟩ u v = 5 := by
  obtain ⟨k0, k1, k2, k3, k4, k5⟩ := coef_At 5 0 0 0 0 0
  have five : add64 (some 5) (some 0) = some 5 := by
    show roundFloat64 (5 + 0) = some 5
    rw [add_zero]
    have h := isFloat64_intCast 5 (by norm_num)
    simpa [IsFloat64] using h
  unfold pixel
  rw [k0, k1, k2, k3, k4, k5]
  simp only [mul64_zero_left, five]
  have hm : mathMax (some 5) = some ((5 : Nat) : ℚ) := by
    show some (max (5 : ℚ) 0) = some ((5 : Nat) : ℚ)
    norm_num
  rw [hm]
  exact uint16_natCast 5 (by norm_num)

theorem quadImage_data (x y : Nat) (hx : x < 3) (hy : y < 3) :
    10 + x + 2 * y + 3 * x ^ 2 + 4 * y ^ 2 + 5 * x * y ≤ 65535 ∧
    ((10 + x + 2 * y + 3 * x ^ 2 + 4 * y ^ 2 + 5 * x * y : Nat) : ℚ)
      = surface 10 1 2 3 4 5 x y := by
  constructor
  · interval_cases x <;> interval_cases y <;> norm_num
  · unfold surface
    push_cast
    ring

theorem main_failure (e : Env) (inImg : Image) (imageType failure : String)
    (hi : e.input.length ≠ 0) (ho : e.output.length ≠ 0) (hopen : e.openInput = none)
    (hdec : e.decode = .ok (inImg, imageType))
    (hp : process e.solve inImg = .error failure) :
    main e = ⟨2, ["panic: " ++ failure], e.outputFile⟩ := by
  unfold main
  rw [if_neg hi, if_neg ho, hopen, hdec]
  simp only [hp]

theorem main_jpeg (e : Env) (inImg : Image) (out : NRGBA64)
    (hi : e.input.length ≠ 0) (ho : e.output.length ≠ 0) (hopen : e.openInput = none)
    (hdec : e.decode = .ok (inImg, "jpeg")) (hp : process e.solve inImg = .ok out)
    (hout : e.openOutput = none) :
    (main e).outputFile = some (writeFromStart (e.outputFile.getD []) (e.jpegEncode out).1) ∧
    ((e.jpegEncode out).2 = none → (main e).status = 0) ∧
    ((e.jpegEncode out).2 ≠ none → (main e).status = 2) := by
  unfold main
  rw [if_neg hi, if_neg ho, hopen, hdec]
  simp only [hp, hout, if_true]
  cases henc : e.jpegEncode out with
  | mk bytes err =>
    cases err with
    | none => exact ⟨rfl, fun _ => rfl, fun h => absurd rfl h⟩
    | some msg => exact ⟨rfl, fun h => by simp at h, fun _ => rfl⟩

theorem main_tiff (e : Env) (inImg : Image) (out : NRGBA64)
    (hi : e.input.length ≠ 0) (ho : e.output.length ≠ 0) (hopen : e.openInput = none)
    (hdec : e.decode = .ok (inImg, "tiff")) (hp : process e.solve inImg = .ok out)
    (hout : e.openOutput = none) :
    (main e).outputFile = some (writeFromStart (e.outputFile.getD []) (e.tiffEncode out).1) ∧
    ((e.tiffEncode out).2 = none → (main e).status = 0) ∧
    ((e.tiffEncode out).2 ≠ none → (main e).status = 2) := by
  have hne : ¬ ("tiff" = "jpeg") := by decide
  unfold main
  rw [if_neg hi, if_neg ho, hopen, hdec]
  simp only [hp, hout, if_neg hne, if_true]
  cases henc : e.tiffEncode out with
  | mk bytes err =>
    cases err with
    | none => exact ⟨rfl, fun _ => rfl, fun h => absurd rfl h⟩
    | some msg => exact ⟨rfl, fun h => by simp at h, fun _ => rfl⟩

theorem outImg_column (d : Dense) (h : ∀ x y : Int, pixel d x y = 0) :
    outImg 1 7 d d d = ⟨1, 7, List.replicate 7 ⟨0, 0, 0, 0xffff⟩⟩ := by
  have e : outImg 1 7 d d d
      = ⟨1, 7, [⟨pixel d (0 : Nat) (0 : Nat), pixel d (0 : Nat) (0 : Nat),
          pixel d (0 : Nat) (0 : Nat), 0xffff⟩,
        ⟨pixel d (0 : Nat) (1 : Nat), pixel d (0 : Nat) (1 : Nat),
          pixel d (0 : Nat) (1 : Nat), 0xffff⟩,
        ⟨pixel d (0 : Nat) (2 : Nat), pixel d (0 : Nat) (2 : Nat),
          pixel d (0 : Nat) (2 : Nat), 0xffff⟩,
        ⟨pixel d (0 : Nat) (3 : Nat), pixel d (0 : Nat) (3 : Nat),
          pixel d (0 : Nat) (3 : Nat), 0xffff⟩,
        ⟨pixel d (0 : Nat) (4 : Nat), pixel d (0 : Nat) (4 : Nat),
          pixel d (0 : Nat) (4 : Nat), 0xffff⟩,
        ⟨pixel d (0 : Nat) (5 : Nat), pixel d (0 : Nat) (5 : Nat),
          pixel d (0 : Nat) (5 : Nat), 0xffff⟩,
        ⟨pixel d (0 : Nat) (6 : Nat), pixel d (0 : Nat) (6 : Nat),
          pixel d (0 : Nat) (6 : Nat), 0xffff⟩]⟩ := rfl
  rw [e]
  simp only [h]
  rfl

/-! ## The claims -/

/-- C4 (as stated, refuted): in a 94906268x1 image the entry for `x^2` at `x = 94906267` is
the rounded value 9007199515875288, not the square 9007199515875289; in a 3037000501x1 image
the product `x*x` at `x = 3037000500` overflows the 64-bit `int` before it is converted and
the entry is negative. -/
theorem coords_entry_not_exact :
    (∃ A, coords 94906268 1 = .ok A ∧
      A.At (0 * 94906268 + 94906267) 3 = 9007199515875288) ∧
    (94906267 : ℚ) ^ 2 = 9007199515875289 ∧
    (∃ A, coords 3037000501 1 = .ok A ∧
      A.At (0 * 3037000501 + 3037000500) 3 = -9223372036709301248) := by
  refine ⟨⟨_, coords_ok _ _ (by norm_num) (by norm_num), ?_⟩, by norm_num,
    ⟨_, coords_ok _ _ (by norm_num) (by norm_num), ?_⟩⟩
  · rw [coords_At 94906268 1 94906267 0 3 (by norm_num) (by norm_num) (by norm_num)]
    show float64 (wrapInt (94906267 * 94906267)) = 9007199515875288
    have h : wrapInt (94906267 * 94906267) = 9007199515875289 := by decide
    rw [h]
    unfold float64
    rw [if_neg (by decide)]
    have h2 : roundMag (Int.natAbs 9007199515875289) = 9007199515875288 := by decide
    rw [h2]
    norm_num
  · rw [coords_At 3037000501 1 3037000500 0 3 (by norm_num) (by norm_num) (by norm_num)]
    exact float64_wrapped_square

/-- C4 (amended): the design matrix has `W*H` rows and 6 columns over a backing slice of
`W*H*6` values, and for every pixel `(x, y)` of the grid whose products `x*x`, `y*y` and `x*y`
do not exceed `2^53`, row `y*W + x` is `[1, x, y, x^2, y^2, x*y]` exactly. -/
theorem coords_shape_and_rows (maxX maxY x y : Nat) (hx : x < maxX) (hy : y < maxY)
    (hxx : x * x ≤ 2 ^ 53) (hyy : y * y ≤ 2 ^ 53) (hxy : x * y ≤ 2 ^ 53) :
    ∃ A, coords maxX maxY = .ok A ∧
    A.rows = maxX * maxY ∧ A.cols = 6 ∧ A.data.length = maxX * maxY * 6 ∧
    A.At (y * maxX + x) 0 = 1 ∧
    A.At (y * maxX + x) 1 = x ∧
    A.At (y * maxX + x) 2 = y ∧
    A.At (y * maxX + x) 3 = (x : ℚ) ^ 2 ∧
    A.At (y * maxX + x) 4 = (y : ℚ) ^ 2 ∧
    A.At (y * maxX + x) 5 = (x : ℚ) * y := by
  have hx53 : x ≤ 2 ^ 53 := le_trans (Nat.le_mul_self x) hxx
  have hy53 : y ≤ 2 ^ 53 := le_trans (Nat.le_mul_self y) hyy
  obtain ⟨h0, h1, h2, h3, h4, h5⟩ := getD_six (1 : ℚ) (float64 x) (float64 y)
    (float64 (wrapInt ((x : Int) * x))) (float64 (wrapInt ((y : Int) * y)))
    (float64 (wrapInt ((x : Int) * y))) 0
  refine ⟨designMatrix maxX maxY, coords_ok _ _ (by omega) (by omega), rfl, rfl,
    coordsData_length maxX maxY, ?_, ?_, ?_, ?_, ?_, ?_⟩
  · rw [coords_At maxX maxY x y 0 hx hy (by omega)]; exact h0
  · rw [coords_At maxX maxY x y 1 hx hy (by omega)]
    exact h1.trans (float64_natCast x hx53)
  · rw [coords_At maxX maxY x y 2 hx hy (by omega)]
    exact h2.trans (float64_natCast y hy53)
  · rw [coords_At maxX maxY x y 3 hx hy (by omega)]
    exact h3.trans ((float64_wrap_mul x x hxx).trans (by ring))
  · rw [coords_At maxX maxY x y 4 hx hy (by omega)]
    exact h4.trans ((float64_wrap_mul y y hyy).trans (by ring))
  · rw [coords_At maxX maxY x y 5 hx hy (by omega)]
    exact h5.trans (float64_wrap_mul x y hxy)

/-- Witness for C4 (amended): pixel `(3, 2)` of a 5x4 grid. -/
theorem coords_shape_and_rows_witness :
    (3 < 5 ∧ 2 < 4) ∧
    ∃ A, coords 5 4 = .ok A ∧
    A.rows = 5 * 4 ∧ A.cols = 6 ∧ A.data.length = 5 * 4 * 6 ∧
    A.At (2 * 5 + 3) 0 = 1 ∧
    A.At (2 * 5 + 3) 1 = (3 : Nat) ∧
    A.At (2 * 5 + 3) 2 = (2 : Nat) ∧
    A.At (2 * 5 + 3) 3 = ((3 : Nat) : ℚ) ^ 2 ∧
    A.At (2 * 5 + 3) 4 = ((2 : Nat) : ℚ) ^ 2 ∧
    A.At (2 * 5 + 3) 5 = ((3 : Nat) : ℚ) * (2 : Nat) :=
  ⟨by decide, coords_shape_and_rows 5 4 3 2 (by decide) (by decide) (by norm_num)
    (by norm_num) (by norm_num)⟩

/-- C7: `getValues` returns a `W*H` by 1 matrix over `W*H` values whose entry `y*W + x` is
the channel function applied to the input pixel `(x, y)`; row `y*W + x` of the design matrix
is the row appended for the same pixel `(x, y)`. -/
theorem getValues_row_order (i : Image) (cf : Color → ℚ) (x y : Nat)
    (hx : x < i.maxX) (hy : y < i.maxY) :
    ∃ b A, getValues i cf = .ok b ∧ coords i.maxX i.maxY = .ok A ∧
    b.rows = i.maxX * i.maxY ∧ b.cols = 1 ∧ b.data.length = i.maxX * i.maxY ∧
    b.At (y * i.maxX + x) 0 = cf (i.At x y) ∧
    ∀ j, j < 6 → A.At (y * i.maxX + x) j = (basisRow x y).getD j 0 :=
  ⟨valueVector i cf, designMatrix i.maxX i.maxY, getValues_ok i cf (by omega) (by omega),
    coords_ok _ _ (by omega) (by omega), rfl, rfl, getValues_length i cf,
    getValues_At i cf x y hx hy, fun j hj => coords_At i.maxX i.maxY x y j hx hy hj⟩

/-- Witness for C7: pixel `(1, 2)` of the 4x4 ramp image, red channel. -/
theorem getValues_row_order_witness :
    (1 < rampImage.maxX ∧ 2 < rampImage.maxY) ∧
    ∃ b A, getValues rampImage cfRed = .ok b ∧ coords rampImage.maxX rampImage.maxY = .ok A ∧
    b.rows = rampImage.maxX * rampImage.maxY ∧ b.cols = 1 ∧
    b.data.length = rampImage.maxX * rampImage.maxY ∧
    b.At (2 * rampImage.maxX + 1) 0 = cfRed (rampImage.At 1 2) ∧
    ∀ j, j < 6 → A.At (2 * rampImage.maxX + 1) j = (basisRow (1 : Nat) (2 : Nat)).getD j 0 :=
  ⟨by decide, getValues_row_order rampImage cfRed 1 2 (by decide) (by decide)⟩

/-- C10: the six columns of the design matrix are linearly independent exactly when the
grid is at least 3 wide and 3 high; the 2x3 grid is rank-deficient although it has six
pixels and neither dimension is 1. -/
theorem design_matrix_rank (maxX maxY : Nat) :
    ((∃ A, coords maxX maxY = .ok A ∧ ColumnsIndependent A) ↔ 3 ≤ maxX ∧ 3 ≤ maxY) ∧
    (∃ A, coords 2 3 = .ok A ∧ ¬ ColumnsIndependent A) ∧ ¬ (2 * 3 < 6 ∨ 2 = 1 ∨ 3 = 1) := by
  refine ⟨⟨fun h => ?_, fun h => ⟨designMatrix maxX maxY,
      coords_ok _ _ (by omega) (by omega), columnsIndependent_of_ge maxX maxY h.1 h.2⟩⟩,
    ⟨designMatrix 2 3, coords_ok _ _ (by decide) (by decide),
      not_columnsIndependent_of_width 2 3 (by decide)⟩, by decide⟩
  obtain ⟨A, hA, hind⟩ := h
  have hpos : 0 < maxX ∧ 0 < maxY := by
    by_contra hc
    have hz : maxX = 0 ∨ maxY = 0 := by omega
    rw [coords_error _ _ hz] at hA
    exact absurd hA (by simp)
  rw [coords_ok _ _ hpos.1 hpos.2] at hA
  have hA2 : designMatrix maxX maxY = A := by
    injection hA
  subst hA2
  constructor
  · by_contra hlt
    exact not_columnsIndependent_of_width maxX maxY (by omega) hind
  · by_contra hlt
    exact not_columnsIndependent_of_height maxX maxY (by omega) hind

/-- C1: on a grid at least 3 wide and 3 high, if the value of a channel (red, green or
blue, as extracted in `main`) at every pixel is `c0 + c1*x + c2*y + c3*x^2 + c4*y^2 + c5*x*y`
and `Solve` returns a least-squares minimiser of the design matrix against that channel's
value vector, then `coords` and `getValues` return those two matrices and `getSolution`
returns the 6x1 matrix `[c0, c1, c2, c3, c4, c5]`. -/
theorem getSolution_exact_recovery (solve : Solve) (i : Image) (cf : Color → ℚ)
    (c0 c1 c2 c3 c4 c5 : ℚ) (hW : 3 ≤ i.maxX) (hH : 3 ≤ i.maxY)
    (hcf : cf = cfRed ∨ cf = cfGreen ∨ cf = cfBlue)
    (hdata : ∀ x y : Nat, x < i.maxX → y < i.maxY →
      cf (i.At x y) = surface c0 c1 c2 c3 c4 c5 x y)
    (hsolve : IsLeastSquares (designMatrix i.maxX i.maxY) (valueVector i cf)
      (solve zeroSolution (designMatrix i.maxX i.maxY) (valueVector i cf)).1) :
    coords i.maxX i.maxY = .ok (designMatrix i.maxX i.maxY) ∧
    getValues i cf = .ok (valueVector i cf) ∧
    getSolution solve i (designMatrix i.maxX i.maxY) cf
      = .ok ⟨6, 1, [c0, c1, c2, c3, c4, c5]⟩ := by
  refine ⟨coords_ok _ _ (by omega) (by omega), getValues_ok i cf (by omega) (by omega), ?_⟩
  rw [getSolution_ok solve i _ cf (by omega) (by omega)]
  exact congrArg Except.ok
    (solution_recovers i cf hcf (fun j => [c0, c1, c2, c3, c4, c5].getD j 0) hW hH hdata _
      hsolve)

/-- Witness for C1: the red channel of the 4x4 ramp image `50 + 2x + 3y`. -/
theorem getSolution_exact_recovery_witness :
    (3 ≤ rampImage.maxX ∧ 3 ≤ rampImage.maxY) ∧
    IsLeastSquares (designMatrix rampImage.maxX rampImage.maxY) (valueVector rampImage cfRed)
      (rampSolve zeroSolution (designMatrix rampImage.maxX rampImage.maxY)
        (valueVector rampImage cfRed)).1 ∧
    coords rampImage.maxX rampImage.maxY
      = .ok (designMatrix rampImage.maxX rampImage.maxY) ∧
    getValues rampImage cfRed = .ok (valueVector rampImage cfRed) ∧
    getSolution rampSolve rampImage (designMatrix rampImage.maxX rampImage.maxY) cfRed
      = .ok ⟨6, 1, [50, 2, 3, 0, 0, 0]⟩ :=
  have hd : ∀ x y : Nat, x < rampImage.maxX → y < rampImage.maxY →
      cfRed (rampImage.At x y) = surface 50 2 3 0 0 0 x y :=
    fun x y hx hy => (rampImage_data x y hx hy).1
  have hls : IsLeastSquares (designMatrix rampImage.maxX rampImage.maxY)
      (valueVector rampImage cfRed)
      (rampSolve zeroSolution (designMatrix rampImage.maxX rampImage.maxY)
        (valueVector rampImage cfRed)).1 :=
    surface_isLeastSquares rampImage cfRed (Or.inl rfl)
      (fun j => [50, 2, 3, 0, 0, 0].getD j 0) hd
  ⟨by decide, hls,
    getSolution_exact_recovery rampSolve rampImage cfRed 50 2 3 0 0 0 (by decide) (by decide)
      (Or.inl rfl) hd hls⟩

/-- C6: the output grid has the width and height of the input, its pixel at every `(x, y)`
of the grid is `(pixel(red,x,y), pixel(green,x,y), pixel(blue,x,y), 0xffff)` for the three
coefficient vectors, so its alpha is `0xffff`, and two runs with the same dimensions and the
same three coefficient vectors produce the same grid. -/
theorem process_assembly (solve : Solve) (inImg : Image) (x y : Nat)
    (hx : x < inImg.maxX) (hy : y < inImg.maxY) :
    ∃ A red green blue out,
    coords inImg.maxX inImg.maxY = .ok A ∧
    getSolution solve inImg A cfRed = .ok red ∧
    getSolution solve inImg A cfGreen = .ok green ∧
    getSolution solve inImg A cfBlue = .ok blue ∧
    process solve inImg = .ok out ∧
    out.maxX = inImg.maxX ∧ out.maxY = inImg.maxY ∧
    out.pix.length = inImg.maxX * inImg.maxY ∧
    out.At x y = ⟨pixel red x y, pixel green x y, pixel blue x y, 0xffff⟩ ∧
    (out.At x y).A = 0xffff ∧
    ∀ (solve2 : Solve) (inImg2 : Image),
      inImg2.maxX = inImg.maxX → inImg2.maxY = inImg.maxY →
      getSolution solve2 inImg2 A cfRed = .ok red →
      getSolution solve2 inImg2 A cfGreen = .ok green →
      getSolution solve2 inImg2 A cfBlue = .ok blue →
      process solve2 inImg2 = .ok out := by
  have hX : 0 < inImg.maxX := by omega
  have hY : 0 < inImg.maxY := by omega
  obtain ⟨oW, oH, oLen, oAt⟩ := outImg_spec inImg.maxX inImg.maxY
    (solve zeroSolution (designMatrix inImg.maxX inImg.maxY) (valueVector inImg cfRed)).1
    (solve zeroSolution (designMatrix inImg.maxX inImg.maxY) (valueVector inImg cfGreen)).1
    (solve zeroSolution (designMatrix inImg.maxX inImg.maxY) (valueVector inImg cfBlue)).1
  have hAt := oAt x y hx hy
  refine ⟨designMatrix inImg.maxX inImg.maxY, _, _, _, _, coords_ok _ _ hX hY,
    getSolution_ok solve inImg _ cfRed hX hY, getSolution_ok solve inImg _ cfGreen hX hY,
    getSolution_ok solve inImg _ cfBlue hX hY, process_ok solve inImg hX hY,
    oW, oH, oLen, hAt, by rw [hAt], ?_⟩
  intro solve2 inImg2 hX2 hY2 hR hG hB
  unfold process
  rw [hX2, hY2, coords_ok _ _ hX hY]
  simp only [hR, hG, hB]

/-- Witness for C6: pixel `(1, 2)` of the output for the 4x4 ramp image. -/
theorem process_assembly_witness :
    (1 < rampImage.maxX ∧ 2 < rampImage.maxY) ∧
    ∃ out, process rampSolve rampImage = .ok out ∧ out.maxX = 4 ∧ out.maxY = 4 ∧
      (out.At 1 2).A = 0xffff := by
  obtain ⟨_, _, _, _, out, _, _, _, _, hp, hW, hH, _, _, hA, _⟩ :=
    process_assembly rampSolve rampImage 1 2 (by decide) (by decide)
  exact ⟨by decide, out, hp, hW, hH, hA⟩

/-- C3 (as stated, refuted): with `c = [1/2, 1/2 - 2^-54, 0, 0, 0, 0]` at `(x, y) = (1, 0)`
the surface value is `1 - 2^-54`, whose floor is 0, but the `float64` sum is a tie that
rounds to 1 and `pixel` returns 1.  With `c = [0, 0, 0, 2^-50, 0, 0]` at
`(x, y) = (3037000500, 0)` the surface value lies in `[0, 65536)` and its floor is 8192, but
`x*x` overflows the 64-bit `int`, the value computed is negative, and `pixel` returns 0. -/
theorem pixel_not_floor :
    (pixel ⟨6, 1, [1 / 2, 1 / 2 - 1 / 2 ^ 54, 0, 0, 0, 0]⟩ 1 0 = 1 ∧
      Int.floor (surface (1 / 2) (1 / 2 - 1 / 2 ^ 54) 0 0 0 0 1 0) = 0 ∧
      0 ≤ surface (1 / 2) (1 / 2 - 1 / 2 ^ 54) 0 0 0 0 1 0 ∧
      surface (1 / 2) (1 / 2 - 1 / 2 ^ 54) 0 0 0 0 1 0 < 65536) ∧
    (pixel ⟨6, 1, [0, 0, 0, 1 / 2 ^ 50, 0, 0]⟩ 3037000500 0 = 0 ∧
      Int.floor (surface 0 0 0 (1 / 2 ^ 50) 0 0 3037000500 0) = 8192 ∧
      0 ≤ surface 0 0 0 (1 / 2 ^ 50) 0 0 3037000500 0 ∧
      surface 0 0 0 (1 / 2 ^ 50) 0 0 3037000500 0 < 65536) := by
  have one : roundFloat64 1 = some 1 := by
    have h := isFloat64_intCast 1 (by norm_num)
    simpa [IsFloat64] using h
  refine ⟨⟨?_, ?_, ?_, ?_⟩, ⟨?_, ?_, ?_, ?_⟩⟩
  · obtain ⟨h0, h1, h2, h3, h4, h5⟩ := coef_At (1 / 2) (1 / 2 - 1 / 2 ^ 54) 0 0 0 0
    have hw1 : wrapInt (1 * 1) = 1 := by decide
    have hw0 : wrapInt (0 * 0) = 0 := by decide
    have hw2 : wrapInt (1 * 0) = 0 := by decide
    have hp : mul64 (1 / 2 - 1 / 2 ^ 54) 1 = some (1 / 2 - 1 / 2 ^ 54) := by
      unfold mul64
      rw [mul_one]
      have e := roundFloat64_exact 9007199254740991 (-54) (by norm_num) (by norm_num)
        (by norm_num)
      have hq : ((9007199254740991 : Int) : ℚ) * (2 : ℚ) ^ (-54 : Int)
          = 1 / 2 - 1 / 2 ^ 54 := by norm_num
      rw [hq] at e
      exact e
    have hs : add64 (some (1 / 2)) (some (1 / 2 - 1 / 2 ^ 54)) = some 1 := by
      show roundFloat64 (1 / 2 + (1 / 2 - 1 / 2 ^ 54)) = some 1
      have hq : (1 / 2 + (1 / 2 - 1 / 2 ^ 54) : ℚ) = 1 - 1 / 2 ^ 54 := by norm_num
      rw [hq]
      exact roundFloat64_tie
    have hs1 : add64 (some 1) (some 0) = some 1 := by
      show roundFloat64 (1 + 0) = some 1
      rw [add_zero]
      exact one
    unfold pixel
    rw [h0, h1, h2, h3, h4, h5, hw1, hw0, hw2, float64_one, float64_zero, hp, hs]
    simp only [mul64_zero_left, hs1]
    have hm : mathMax (some 1) = some ((1 : Nat) : ℚ) := by
      show some (max (1 : ℚ) 0) = some ((1 : Nat) : ℚ)
      norm_num
    rw [hm]
    exact uint16_natCast 1 (by norm_num)
  · rw [Int.floor_eq_iff]
    norm_num [surface]
  · norm_num [surface]
  · norm_num [surface]
  · obtain ⟨h0, h1, h2, h3, h4, h5⟩ := coef_At 0 0 0 (1 / 2 ^ 50) 0 0
    have hw0 : wrapInt (0 * 0) = 0 := by decide
    have hw1 : wrapInt (3037000500 * 0) = 0 := by decide
    have hp : mul64 (1 / 2 ^ 50) (-9223372036709301248)
        = some (-9007199254598927 / 2 ^ 40) := by
      unfold mul64
      have e := roundFloat64_exact (-9007199254598927) (-40) (by norm_num) (by norm_num)
        (by norm_num)
      have hq : ((-9007199254598927 : Int) : ℚ) * (2 : ℚ) ^ (-40 : Int)
          = 1 / 2 ^ 50 * -9223372036709301248 := by norm_num
      have hq2 : ((-9007199254598927 : Int) : ℚ) * (2 : ℚ) ^ (-40 : Int)
          = -9007199254598927 / 2 ^ 40 := by norm_num
      rw [hq] at e
      rw [e, ← hq, hq2]
    have hs : add64 (some 0) (some (-9007199254598927 / 2 ^ 40))
        = some (-9007199254598927 / 2 ^ 40) := by
      show roundFloat64 (0 + -9007199254598927 / 2 ^ 40) = _
      rw [zero_add]
      have e := roundFloat64_exact (-9007199254598927) (-40) (by norm_num) (by norm_num)
        (by norm_num)
      have hq2 : ((-9007199254598927 : Int) : ℚ) * (2 : ℚ) ^ (-40 : Int)
          = -9007199254598927 / 2 ^ 40 := by norm_num
      rw [hq2] at e
      exact e
    have hs2 : add64 (some (-9007199254598927 / 2 ^ 40)) (some 0)
        = some (-9007199254598927 / 2 ^ 40) := by
      show roundFloat64 (-9007199254598927 / 2 ^ 40 + 0) = _
      rw [add_zero]
      have e := roundFloat64_exact (-9007199254598927) (-40) (by norm_num) (by norm_num)
        (by norm_num)
      have hq2 : ((-9007199254598927 : Int) : ℚ) * (2 : ℚ) ^ (-40 : Int)
          = -9007199254598927 / 2 ^ 40 := by norm_num
      rw [hq2] at e
      exact e
    unfold pixel
    rw [h0, h1, h2, h3, h4, h5, float64_wrapped_square, hw0, hw1, float64_zero, hp]
    simp only [mul64_zero_left, add64_zero_zero, hs, hs2]
    have hm : mathMax (some (-9007199254598927 / 2 ^ 40)) = some ((0 : Nat) : ℚ) := by
      show some (max (-9007199254598927 / 2 ^ 40 : ℚ) 0) = some ((0 : Nat) : ℚ)
      norm_num
    rw [hm]
    exact uint16_natCast 0 (by norm_num)
  · rw [Int.floor_eq_iff]
    norm_num [surface]
  · norm_num [surface]
  · norm_num [surface]

/-- C3 (amended): for coordinates `x, y >= 0` whose products `x*x`, `y*y` and `x*y` do not
exceed `2^53`, and a coefficient vector for which no `float64` operation of the evaluation
rounds at `(x, y)`, `pixel` is the 16-bit conversion of `max(f(x,y), 0)` for the surface
value `f(x,y)`: it is `floor(f(x,y))` when `0 <= f(x,y) < 65536` and 0 when `f(x,y) < 0`.
For `c = [5, 0, 0, 0, 0, 0]` it is 5 at every pixel, without any condition. -/
theorem pixel_floor_at_zero (c0 c1 c2 c3 c4 c5 : ℚ) (x y : Nat)
    (hxx : x * x ≤ 2 ^ 53) (hyy : y * y ≤ 2 ^ 53) (hxy : x * y ≤ 2 ^ 53)
    (hexact : EvaluatesExactly c0 c1 c2 c3 c4 c5 x y) :
    pixel ⟨6, 1, [c0, c1, c2, c3, c4, c5]⟩ x y
      = uint16 (some (max (surface c0 c1 c2 c3 c4 c5 x y) 0)) ∧
    (0 ≤ surface c0 c1 c2 c3 c4 c5 x y → surface c0 c1 c2 c3 c4 c5 x y < 65536 →
      (pixel ⟨6, 1, [c0, c1, c2, c3, c4, c5]⟩ x y : Int)
        = Int.floor (surface c0 c1 c2 c3 c4 c5 x y)) ∧
    (surface c0 c1 c2 c3 c4 c5 x y < 0 →
      pixel ⟨6, 1, [c0, c1, c2, c3, c4, c5]⟩ x y = 0) ∧
    (∀ u v : Int, pixel ⟨6, 1, [5, 0, 0, 0, 0, 0]⟩ u v = 5) := by
  have hp := pixel_exact c0 c1 c2 c3 c4 c5 x y hxx hyy hxy hexact
  refine ⟨hp, ?_, ?_, pixel_const5⟩
  · intro hlo hhi
    rw [hp, max_eq_left hlo]
    exact uint16_of_range _ hlo hhi
  · intro hneg
    rw [hp, max_eq_right (le_of_lt hneg)]
    exact uint16_natCast 0 (by norm_num)

/-- Witness for C3 (amended): `c = [10, 1, -3, 1/2, 0, 2]` at the pixel `(3, 4)`, where the
surface value is `59/2` and `pixel` returns 29. -/
theorem pixel_floor_at_zero_witness :
    (3 * 3 ≤ 2 ^ 53 ∧ 4 * 4 ≤ 2 ^ 53 ∧ 3 * 4 ≤ 2 ^ 53) ∧
    EvaluatesExactly 10 1 (-3) (1 / 2) 0 2 (3 : Nat) (4 : Nat) ∧
    (0 ≤ surface 10 1 (-3) (1 / 2) 0 2 (3 : Nat) (4 : Nat) ∧
      surface 10 1 (-3) (1 / 2) 0 2 (3 : Nat) (4 : Nat) < 65536) ∧
    (pixel ⟨6, 1, [10, 1, -3, 1 / 2, 0, 2]⟩ (3 : Nat) (4 : Nat) : Int)
      = Int.floor (surface 10 1 (-3) (1 / 2) 0 2 (3 : Nat) (4 : Nat)) ∧
    Int.floor (surface 10 1 (-3) (1 / 2) 0 2 (3 : Nat) (4 : Nat)) = 29 :=
  have hexact : EvaluatesExactly 10 1 (-3) (1 / 2) 0 2 (3 : Nat) (4 : Nat) :=
    ⟨isFloat64_of_eq _ 6 (by norm_num) (by norm_num),
      isFloat64_of_eq _ 26 (by norm_num) (by norm_num),
      isFloat64_of_eq _ (-24) (by norm_num) (by norm_num),
      isFloat64_of_eq _ 2 (by norm_num) (by norm_num),
      isFloat64_of_eq _ 9 (by norm_num) (by norm_num),
      isFloat64_of_eq _ 11 (by norm_num) (by norm_num),
      isFloat64_of_eq _ 0 (by norm_num) (by norm_num),
      isFloat64_of_eq _ 11 (by norm_num) (by norm_num),
      isFloat64_of_eq _ 48 (by norm_num) (by norm_num),
      isFloat64_of_eq _ 59 (by norm_num) (by norm_num)⟩
  ⟨by norm_num, hexact, by norm_num [surface],
    (pixel_floor_at_zero 10 1 (-3) (1 / 2) 0 2 3 4 (by norm_num) (by norm_num)
      (by norm_num) hexact).2.1 (by norm_num [surface]) (by norm_num [surface]),
    by rw [Int.floor_eq_iff]; norm_num [surface]⟩

/-- C5 (as stated, refuted): the 3x3 image `10 + x + 2y + 3x^2 + 4y^2 + 5xy` is in the
model's span with values in `[0, 65535]`, and with a `Solve` whose result has the constant
term one unit in the last place below 10 (a relative error below `10^-6`) the output pixel
at `(0, 0)` is 9 where the input has 10: `pixel` truncates. -/
theorem near_fit_changes_pixel :
    (3 ≤ quadImage.maxX ∧ 3 ≤ quadImage.maxY) ∧
    (∀ x y : Nat, x < 3 → y < 3 → (quadImage.At x y).r ≤ 65535 ∧
      ((quadImage.At x y).r : ℚ) = surface 10 1 2 3 4 5 x y) ∧
    (quadImage.At 0 0).r = 10 ∧
    |(10 : ℚ) - (10 - 1 / 2 ^ 49)| ≤ 10 / 10 ^ 6 ∧
    ∃ out, process nearSolve quadImage = .ok out ∧ out.At 0 0 = ⟨9, 9, 9, 0xffff⟩ := by
  have hexact : EvaluatesExactly (10 - 1 / 2 ^ 49) 1 2 3 4 5 (0 : Nat) (0 : Nat) := by
    have hc : IsFloat64 (10 - 1 / 2 ^ 49 : ℚ) := by
      have e := roundFloat64_exact 5629499534213119 (-49) (by norm_num) (by norm_num)
        (by norm_num)
      have hq : ((5629499534213119 : Int) : ℚ) * (2 : ℚ) ^ (-49 : Int)
          = 10 - 1 / 2 ^ 49 := by norm_num
      rw [hq] at e
      exact e
    have hz : IsFloat64 (0 : ℚ) := isFloat64_of_eq _ 0 (by norm_num) (by norm_num)
    have Z : ∀ q : ℚ, q = 0 → IsFloat64 q := fun q h => h ▸ hz
    have C : ∀ q : ℚ, q = 10 - 1 / 2 ^ 49 → IsFloat64 q := fun q h => h ▸ hc
    exact ⟨Z _ (by norm_num), C _ (by norm_num), Z _ (by norm_num), C _ (by norm_num),
      Z _ (by norm_num), C _ (by norm_num), Z _ (by norm_num), C _ (by norm_num),
      Z _ (by norm_num), C _ (by norm_num)⟩
  have hpix : pixel ⟨6, 1, [10 - 1 / 2 ^ 49, 1, 2, 3, 4, 5]⟩ (0 : Nat) (0 : Nat) = 9 := by
    rw [pixel_exact _ _ _ _ _ _ 0 0 (by norm_num) (by norm_num) (by norm_num) hexact]
    have hv : max (surface (10 - 1 / 2 ^ 49) 1 2 3 4 5 (0 : Nat) (0 : Nat)) 0
        = 10 - 1 / 2 ^ 49 := by
      norm_num [surface]
    rw [hv]
    have h1 := uint16_of_range (10 - 1 / 2 ^ 49) (by norm_num) (by norm_num)
    have h2 : Int.floor (10 - 1 / 2 ^ 49 : ℚ) = 9 := by
      rw [Int.floor_eq_iff]
      norm_num
    rw [h2] at h1
    exact_mod_cast h1
  obtain ⟨oW, oH, oLen, oAt⟩ := outImg_spec 3 3
    (⟨6, 1, [10 - 1 / 2 ^ 49, 1, 2, 3, 4, 5]⟩ : Dense)
    (⟨6, 1, [10 - 1 / 2 ^ 49, 1, 2, 3, 4, 5]⟩ : Dense)
    (⟨6, 1, [10 - 1 / 2 ^ 49, 1, 2, 3, 4, 5]⟩ : Dense)
  refine ⟨by decide, fun x y hx hy => quadImage_data x y hx hy, rfl, ?_,
    _, process_ok nearSolve quadImage (by decide) (by decide), ?_⟩
  · rw [abs_of_nonneg] <;> norm_num
  · have h := oAt 0 0 (by norm_num) (by norm_num)
    rw [hpix] at h
    exact h

/-- C5 (amended): on a grid at least 3 wide and 3 high, if each of the three channels of the
input is a surface `c0 + c1*x + c2*y + c3*x^2 + c4*y^2 + c5*x*y` with values in `[0, 65535]`,
then each channel of the output pixel at `(x, y)` is the truncation of the `float64` value
that `pixel` computes from the coefficient vector returned for that channel: a computed
value in `[v, v+1)` gives `v` and one in `[v-1, v)` gives `v - 1`.  If `Solve` returns the
exact least-squares minimiser for each channel, the computed values are the input values
(no `float64` operation rounds) and the output pixel has the red, green and blue values of
the input pixel and alpha `0xffff`. -/
theorem process_fixes_span (solve : Solve) (i : Image) (fr fg fb : Nat → ℚ)
    (hW : 3 ≤ i.maxX) (hH : 3 ≤ i.maxY)
    (hr : ∀ x y : Nat, x < i.maxX → y < i.maxY → (i.At x y).r ≤ 65535 ∧
      ((i.At x y).r : ℚ) = surface (fr 0) (fr 1) (fr 2) (fr 3) (fr 4) (fr 5) x y)
    (hg : ∀ x y : Nat, x < i.maxX → y < i.maxY → (i.At x y).g ≤ 65535 ∧
      ((i.At x y).g : ℚ) = surface (fg 0) (fg 1) (fg 2) (fg 3) (fg 4) (fg 5) x y)
    (hb : ∀ x y : Nat, x < i.maxX → y < i.maxY → (i.At x y).b ≤ 65535 ∧
      ((i.At x y).b : ℚ) = surface (fb 0) (fb 1) (fb 2) (fb 3) (fb 4) (fb 5) x y)
    (x y : Nat) (hx : x < i.maxX) (hy : y < i.maxY) :
    ∃ A red green blue out,
    coords i.maxX i.maxY = .ok A ∧
    getSolution solve i A cfRed = .ok red ∧
    getSolution solve i A cfGreen = .ok green ∧
    getSolution solve i A cfBlue = .ok blue ∧
    process solve i = .ok out ∧ out.maxX = i.maxX ∧ out.maxY = i.maxY ∧
    out.At x y = ⟨pixel red x y, pixel green x y, pixel blue x y, 0xffff⟩ ∧
    (∀ (d : Dense) (F : ℚ) (v : Nat), fittedFloat64 d x y = some F → v ≤ 65535 →
      ((v : ℚ) ≤ F → F < v + 1 → pixel d x y = v) ∧
      ((v : ℚ) - 1 ≤ F → F < v → pixel d x y = v - 1)) ∧
    (IsLeastSquares A (valueVector i cfRed) (solve zeroSolution A (valueVector i cfRed)).1 →
      IsLeastSquares A (valueVector i cfGreen)
        (solve zeroSolution A (valueVector i cfGreen)).1 →
      IsLeastSquares A (valueVector i cfBlue) (solve zeroSolution A (valueVector i cfBlue)).1 →
      fittedFloat64 red x y = some ((i.At x y).r : ℚ) ∧
      fittedFloat64 green x y = some ((i.At x y).g : ℚ) ∧
      fittedFloat64 blue x y = some ((i.At x y).b : ℚ) ∧
      out.At x y = ⟨(i.At x y).r, (i.At x y).g, (i.At x y).b, 0xffff⟩) := by
  have hX : 0 < i.maxX := by omega
  have hY : 0 < i.maxY := by omega
  have channel : ∀ (n : Color → Nat) (cf : Color → ℚ) (f : Nat → ℚ),
      (cf = cfRed ∨ cf = cfGreen ∨ cf = cfBlue) →
      (∀ c, cf c = float64 ((n c % 2 ^ 32 : Nat) : Int)) →
      (∀ x y : Nat, x < i.maxX → y < i.maxY → n (i.At x y) ≤ 65535 ∧
        (n (i.At x y) : ℚ) = surface (f 0) (f 1) (f 2) (f 3) (f 4) (f 5) x y) →
      IsLeastSquares (designMatrix i.maxX i.maxY) (valueVector i cf)
        (solve zeroSolution (designMatrix i.maxX i.maxY) (valueVector i cf)).1 →
      fittedFloat64 (solve zeroSolution (designMatrix i.maxX i.maxY) (valueVector i cf)).1 x y
        = some (n (i.At x y) : ℚ) := by
    intro n cf f hcf hcfn hn hs
    have hdata : ∀ x y : Nat, x < i.maxX → y < i.maxY →
        cf (i.At x y) = surface (f 0) (f 1) (f 2) (f 3) (f 4) (f 5) x y := by
      intro a b ha hb
      have hlt : n (i.At a b) < 2 ^ 32 := lt_of_le_of_lt (hn a b ha hb).1 (by norm_num)
      rw [hcfn, Nat.mod_eq_of_lt hlt,
        float64_natCast _ (le_trans (hn a b ha hb).1 (by norm_num))]
      exact (hn a b ha hb).2
    rw [solution_recovers i cf hcf f hW hH hdata _ hs]
    exact fittedFloat64_of_surface f i.maxX i.maxY hW hH (fun a b => n (i.At a b))
      (fun a b ha hb => (hn a b ha hb).1) (fun a b ha hb => (hn a b ha hb).2) x y hx hy
  obtain ⟨oW, oH, _, oAt⟩ := outImg_spec i.maxX i.maxY
    (solve zeroSolution (designMatrix i.maxX i.maxY) (valueVector i cfRed)).1
    (solve zeroSolution (designMatrix i.maxX i.maxY) (valueVector i cfGreen)).1
    (solve zeroSolution (designMatrix i.maxX i.maxY) (valueVector i cfBlue)).1
  refine ⟨designMatrix i.maxX i.maxY, _, _, _, _, coords_ok _ _ hX hY,
    getSolution_ok solve i _ cfRed hX hY, getSolution_ok solve i _ cfGreen hX hY,
    getSolution_ok solve i _ cfBlue hX hY, process_ok solve i hX hY, oW, oH, oAt x y hx hy,
    fun d F v hF hv => pixel_truncates d x y F v hF hv, ?_⟩
  intro hsr hsg hsb
  have hR := channel (fun c => c.r) cfRed fr (Or.inl rfl) (fun _ => rfl) hr hsr
  have hG := channel (fun c => c.g) cfGreen fg (Or.inr (Or.inl rfl)) (fun _ => rfl) hg hsg
  have hB := channel (fun c => c.b) cfBlue fb (Or.inr (Or.inr rfl)) (fun _ => rfl) hb hsb
  refine ⟨hR, hG, hB, ?_⟩
  have pR := (pixel_truncates _ x y _ _ hR (hr x y hx hy).1).1 (le_refl _) (by linarith)
  have pG := (pixel_truncates _ x y _ _ hG (hg x y hx hy).1).1 (le_refl _) (by linarith)
  have pB := (pixel_truncates _ x y _ _ hB (hb x y hx hy).1).1 (le_refl _) (by linarith)
  rw [oAt x y hx hy, pR, pG, pB]

/-- Witness for C5 (amended): with a `Solve` that stores `[50, 2, 3, 0, 0, 0]`, the 4x4
image with every channel `50 + 2x + 3y` is reproduced unchanged, here at the pixels
`(0, 0)`, `(1, 2)` and `(3, 3)`. -/
theorem process_fixes_span_witness :
    (3 ≤ rampImage.maxX ∧ 3 ≤ rampImage.maxY) ∧
    (∃ out, process rampSolve rampImage = .ok out ∧ out.At 0 0 = ⟨50, 50, 50, 0xffff⟩) ∧
    (∃ out, process rampSolve rampImage = .ok out ∧ out.At 1 2 = ⟨58, 58, 58, 0xffff⟩) ∧
    (∃ out, process rampSolve rampImage = .ok out ∧ out.At 3 3 = ⟨65, 65, 65, 0xffff⟩) := by
  have hv : ∀ x y : Nat, x < rampImage.maxX → y < rampImage.maxY →
      50 + 2 * x + 3 * y ≤ 65535 ∧
      ((50 + 2 * x + 3 * y : Nat) : ℚ) = surface 50 2 3 0 0 0 x y := by
    intro x y hx hy
    have hx4 : x < 4 := hx
    have hy4 : y < 4 := hy
    refine ⟨by omega, ?_⟩
    unfold surface
    push_cast
    ring
  have hls : ∀ cf : Color → ℚ, (cf = cfRed ∨ cf = cfGreen ∨ cf = cfBlue) →
      (∀ x y : Nat, x < rampImage.maxX → y < rampImage.maxY →
        cf (rampImage.At x y) = surface 50 2 3 0 0 0 x y) →
      IsLeastSquares (designMatrix rampImage.maxX rampImage.maxY) (valueVector rampImage cf)
        (rampSolve zeroSolution (designMatrix rampImage.maxX rampImage.maxY)
          (valueVector rampImage cf)).1 :=
    fun cf hcf hd => surface_isLeastSquares rampImage cf hcf
      (fun j => [50, 2, 3, 0, 0, 0].getD j 0) hd
  have lsR := hls cfRed (Or.inl rfl) (fun x y hx hy => (rampImage_data x y hx hy).1)
  have lsG := hls cfGreen (Or.inr (Or.inl rfl)) (fun x y hx hy => (rampImage_data x y hx hy).2.1)
  have lsB := hls cfBlue (Or.inr (Or.inr rfl)) (fun x y hx hy => (rampImage_data x y hx hy).2.2)
  have hall := process_fixes_span rampSolve rampImage
    (fun j => [50, 2, 3, 0, 0, 0].getD j 0) (fun j => [50, 2, 3, 0, 0, 0].getD j 0)
    (fun j => [50, 2, 3, 0, 0, 0].getD j 0) (by decide) (by decide) hv hv hv
  have hA : coords rampImage.maxX rampImage.maxY
      = .ok (designMatrix rampImage.maxX rampImage.maxY) := coords_ok _ _ (by decide) (by decide)
  have pick : ∀ x y : Nat, x < rampImage.maxX → y < rampImage.maxY →
      ∃ out, process rampSolve rampImage = .ok out ∧
        out.At x y = ⟨50 + 2 * x + 3 * y, 50 + 2 * x + 3 * y, 50 + 2 * x + 3 * y, 0xffff⟩ := by
    intro x y hx hy
    obtain ⟨A, _, _, _, out, cA, _, _, _, hp, _, _, _, _, hex⟩ := hall x y hx hy
    have hAeq : designMatrix rampImage.maxX rampImage.maxY = A := by
      rw [hA] at cA
      injection cA
    subst hAeq
    exact ⟨out, hp, (hex lsR lsG lsB).2.2.2⟩
  exact ⟨by decide, pick 0 0 (by decide) (by decide), pick 1 2 (by decide) (by decide),
    pick 3 3 (by decide) (by decide)⟩

/-- C9: `main` exits with status 1 if the `-input` or the `-output` flag is empty; with both
flags present, with status 255 if the input cannot be opened or decoded; with the input
decoded, with status 2 if the output path cannot be opened or the encoder of the image's
format fails. -/
theorem main_exit_status (e : Env) :
    ((e.input.length = 0 ∨ e.output.length = 0) → (main e).status = 1) ∧
    (e.input.length ≠ 0 → e.output.length ≠ 0 →
      (e.openInput ≠ none ∨ (e.openInput = none ∧ ∃ err, e.decode = .error err)) →
      (main e).status = 255) ∧
    (∀ (inImg : Image) (imageType : String),
      e.input.length ≠ 0 → e.output.length ≠ 0 → e.openInput = none →
      e.decode = .ok (inImg, imageType) →
      (e.openOutput ≠ none ∨
        (e.openOutput = none ∧ imageType = "jpeg" ∧
          ∃ out, process e.solve inImg = .ok out ∧ (e.jpegEncode out).2 ≠ none) ∨
        (e.openOutput = none ∧ imageType = "tiff" ∧
          ∃ out, process e.solve inImg = .ok out ∧ (e.tiffEncode out).2 ≠ none)) →
      (main e).status = 2) := by
  refine ⟨fun h => (main_flags e h).1, ?_, ?_⟩
  · intro hi ho h
    unfold main
    rw [if_neg hi, if_neg ho]
    rcases h with h | ⟨h, err, hd⟩
    · cases hopen : e.openInput with
      | none => exact absurd hopen h
      | some msg => rfl
    · rw [h, hd]
  · intro inImg imageType hi ho hopen hdec h
    rcases h with h | ⟨hout, ht, out, hp, h⟩ | ⟨hout, ht, out, hp, h⟩
    · cases hp : process e.solve inImg with
      | error failure => rw [main_failure e inImg imageType failure hi ho hopen hdec hp]
      | ok out =>
        unfold main
        rw [if_neg hi, if_neg ho, hopen, hdec]
        simp only [hp]
        cases hout : e.openOutput with
        | none => exact absurd hout h
        | some msg => rfl
    · subst ht
      exact (main_jpeg e inImg out hi ho hopen hdec hp hout).2.2 h
    · subst ht
      exact (main_tiff e inImg out hi ho hopen hdec hp hout).2.2 h

/-- Witness for C9: the sample run with the input flag missing, with an input that cannot
be opened, and with an output path that cannot be opened. -/
theorem main_exit_status_witness :
    (main { sampleEnv with input := "" }).status = 1 ∧
    (main { sampleEnv with openInput := some "no such file" }).status = 255 ∧
    (main { sampleEnv with openOutput := some "permission denied" }).status = 2 :=
  ⟨(main_exit_status { sampleEnv with input := "" }).1 (Or.inl rfl),
    (main_exit_status { sampleEnv with openInput := some "no such file" }).2.1
      (by decide) (by decide) (Or.inl (by simp)),
    (main_exit_status { sampleEnv with openOutput := some "permission denied" }).2.2
      rampImage "tiff" (by decide) (by decide) rfl rfl (Or.inl (by simp))⟩

/-- C2 (as stated, refuted): for the image one pixel wide and seven high, with a `Solve`
that reports a singular system, `getSolution` still returns a coefficient vector (the
zero-initialised receiver), and `main` exits with status 0 after writing the seven-pixel
output image built from it to the output file. -/
theorem singular_fit_still_writes :
    (columnImage.maxX = 1 ∧ columnImage.maxY = 7) ∧
    (∃ A b, coords 1 7 = .ok A ∧ getValues columnImage cfRed = .ok b ∧
      (singularSolve zeroSolution A b).2 = some SolveError.condition ∧
      getSolution singularSolve columnImage A cfRed = .ok zeroSolution) ∧
    (main singularEnv).status = 0 ∧
    (main singularEnv).outputFile =
      some [0, 0, 0, 65535, 0, 0, 0, 65535, 0, 0, 0, 65535, 0, 0, 0, 65535,
        0, 0, 0, 65535, 0, 0, 0, 65535, 0, 0, 0, 65535] := by
  have hp : process singularSolve columnImage
      = .ok ⟨1, 7, List.replicate 7 ⟨0, 0, 0, 0xffff⟩⟩ := by
    rw [process_ok singularSolve columnImage (by decide) (by decide)]
    exact congrArg Except.ok (outImg_column zeroSolution pixel_zero)
  have hm := main_tiff singularEnv columnImage _ (by decide) (by decide) rfl rfl hp rfl
  refine ⟨⟨rfl, rfl⟩, ⟨_, _, coords_ok 1 7 (by decide) (by decide),
    getValues_ok columnImage cfRed (by decide) (by decide), rfl,
    getSolution_ok singularSolve columnImage _ cfRed (by decide) (by decide)⟩,
    hm.2.1 rfl, ?_⟩
  rw [hm.1]
  rfl

/-- C2 (amended): `getSolution` never reports a singular system.  For every image with
at least one pixel, whatever its dimensions and whatever error `Solve` reports, `getValues`
succeeds and `getSolution` returns the matrix that `Solve` left in the zero-initialised 6x1
receiver; in a run that decodes such a `jpeg` or `tiff` image and opens the output path,
`main` assembles an output image of the input's dimensions from the three results and
writes what the encoder produces to the output file.  Only an image without pixels stops
the run: `NewDense` fails and the process ends with status 2 before the output path is
opened. -/
theorem getSolution_no_failure_path (e : Env) (inImg : Image) (imageType : String)
    (hi : e.input.length ≠ 0) (ho : e.output.length ≠ 0) (hopen : e.openInput = none)
    (hdec : e.decode = .ok (inImg, imageType)) (hout : e.openOutput = none)
    (hfmt : imageType = "jpeg" ∨ imageType = "tiff") :
    (0 < inImg.maxX → 0 < inImg.maxY →
      ∃ A out, coords inImg.maxX inImg.maxY = .ok A ∧
        (∀ cf : Color → ℚ, ∃ b, getValues inImg cf = .ok b ∧
          getSolution e.solve inImg A cf = .ok (e.solve zeroSolution A b).1) ∧
        process e.solve inImg = .ok out ∧
        out.maxX = inImg.maxX ∧ out.maxY = inImg.maxY ∧
        out.pix.length = inImg.maxX * inImg.maxY ∧
        (imageType = "jpeg" → (main e).outputFile
          = some (writeFromStart (e.outputFile.getD []) (e.jpegEncode out).1)) ∧
        (imageType = "tiff" → (main e).outputFile
          = some (writeFromStart (e.outputFile.getD []) (e.tiffEncode out).1))) ∧
    ((inImg.maxX = 0 ∨ inImg.maxY = 0) →
      (main e).status = 2 ∧ (main e).outputFile = e.outputFile) := by
  constructor
  · intro hX hY
    obtain ⟨oW, oH, oLen, _⟩ := outImg_spec inImg.maxX inImg.maxY
      (e.solve zeroSolution (designMatrix inImg.maxX inImg.maxY) (valueVector inImg cfRed)).1
      (e.solve zeroSolution (designMatrix inImg.maxX inImg.maxY)
        (valueVector inImg cfGreen)).1
      (e.solve zeroSolution (designMatrix inImg.maxX inImg.maxY) (valueVector inImg cfBlue)).1
    have hp := process_ok e.solve inImg hX hY
    refine ⟨designMatrix inImg.maxX inImg.maxY, _, coords_ok _ _ hX hY,
      fun cf => ⟨valueVector inImg cf, getValues_ok inImg cf hX hY,
        getSolution_ok e.solve inImg _ cf hX hY⟩,
      hp, oW, oH, oLen, fun hj => ?_, fun ht => ?_⟩
    · subst hj
      exact (main_jpeg e inImg _ hi ho hopen hdec hp hout).1
    · subst ht
      exact (main_tiff e inImg _ hi ho hopen hdec hp hout).1
  · intro hz
    rw [main_failure e inImg imageType _ hi ho hopen hdec (process_error e.solve inImg hz)]
    exact ⟨rfl, rfl⟩

/-- Witness for C2 (amended): the run on the one-pixel-wide image with the solver that
reports a singular system, and the run on an image without pixels. -/
theorem getSolution_no_failure_path_witness :
    (singularEnv.decode = .ok (columnImage, "tiff") ∧ singularEnv.openOutput = none) ∧
    (∃ A out, coords columnImage.maxX columnImage.maxY = .ok A ∧
      (∃ b, getValues columnImage cfRed = .ok b ∧
        getSolution singularEnv.solve columnImage A cfRed
          = .ok (singularEnv.solve zeroSolution A b).1) ∧
      process singularEnv.solve columnImage = .ok out ∧
      out.pix.length = columnImage.maxX * columnImage.maxY) ∧
    ((main emptyEnv).status = 2 ∧ (main emptyEnv).outputFile = emptyEnv.outputFile) := by
  obtain ⟨A, out, hA, hcf, hp, _, _, hlen, _, _⟩ :=
    (getSolution_no_failure_path singularEnv columnImage "tiff" (by decide) (by decide)
      rfl rfl rfl (Or.inr rfl)).1 (by decide) (by decide)
  exact ⟨⟨rfl, rfl⟩, ⟨A, out, hA, hcf cfRed, hp, hlen⟩,
    (getSolution_no_failure_path emptyEnv ⟨0, 0, fun _ _ => ⟨0, 0, 0, 0⟩⟩ "jpeg"
      (by decide) (by decide) rfl rfl rfl (Or.inl rfl)).2 (Or.inl rfl)⟩

end Lpr
